import Mathlib
/-!
Verification development for the FinAgent query-orchestration core.

The Python sources embedded here:
  * `src/services/mcp_agent.py`   — `QueryIntent.analyze`, `MCPAgent._route_query`,
    `MCPAgent._get_cached` / `_set_cached`, the five `_handle_*` coroutines,
    `_execute_agents`, `_merge_responses`, `MCPAgent.run`;
  * `src/services/MCP/intent.py`  — the second `QueryIntent.analyze` revision
    (with entity boosts);
  * `src/services/MCP/cache.py`   — `CacheManager` (JSON-serialising cache);
  * `src/services/MCP/handlers.py` — `handle_generic`.

Modelling conventions:
  * Python strings are `List Char`; `str.lower()` is `Char.toLower` per character
    (exact for the ASCII keyword tables and patterns of the source).
  * Confidence scores in the source are float sums of the constants
    0.2/0.3/0.4/0.5/0.6/0.7/0.8/1.0, all exact multiples of 0.1; we represent a
    score s by the natural number 10·s ("tenths").  All operations used
    (+, ·, min, max, ≤, <) commute with this scaling, so the model is exact.
  * Wall-clock time is an abstract `Nat` tick passed explicitly.
  * Python's built-in `hash` (used inside cache keys) is an opaque per-process
    deterministic function; a cache key `f"{agent}:{hash(norm)}"` is modelled as
    the pair `(agent, norm)` of the hash's inputs.
  * Python floats inside cached payloads are outside the model (the repository's
    claim-relevant payloads are ints, strings, lists and dicts).
-/

/-! ## Basic string utilities (Python `str` operations on `List Char`) -/

/-- Characters of a Lean string literal, used to transcribe Python literals. -/
def chars (s : String) : List Char := s.data

/-- Python `s.lower()` for the ASCII fragment: `Char.toLower` lowercases exactly
`'A'`-`'Z'`, which coincides with `str.lower` on ASCII text. -/
def lowerStr (l : List Char) : List Char := l.map Char.toLower

/-- Python substring test `pat in hay`. -/
def isSub (pat hay : List Char) : Bool :=
  match hay with
  | [] => decide (pat = [])
  | _ :: t => pat.isPrefixOf hay || isSub pat t

/-- Python truthiness boundary used by `str.strip()`: the default strip set of
whitespace characters relevant to the sources (ASCII whitespace). -/
def pyIsSpace (c : Char) : Bool :=
  c == ' ' || c == '\t' || c == '\n' || c == '\r' || c == '\x0b' || c == '\x0c'

/-- Python `s.strip()`: drop leading and trailing whitespace. -/
def stripStr (l : List Char) : List Char :=
  (l.dropWhile pyIsSpace).reverse.dropWhile pyIsSpace |>.reverse

/-! ## Agent identities (`AgentType` in both `mcp_agent.py` and `MCP/enums.py`) -/

inductive AgentType where
  | STOCK | RAG | Portfolio | EMAIL | WEBSEARCH
deriving DecidableEq, Repr, Fintype

/-- Python `AgentType.value`. -/
def AgentType.value : AgentType → String
  | .STOCK => "stock"
  | .RAG => "rag"
  | .Portfolio => "portfolio"
  | .EMAIL => "email"
  | .WEBSEARCH => "websearch"

/-! ## Intent scoring, `mcp_agent.py` revision (class `QueryIntent`, lines 31-98)

`QueryIntentA` is the `QueryIntent` class of `mcp_agent.py` (no entity boosts);
`QueryIntent` further below is the `MCP/intent.py` revision. -/

def QueryIntentA.strong : AgentType → List (List Char)
  | .STOCK => [chars "price", chars "ticker", chars "quote", chars "trading",
      chars "share", chars "stock", chars "ma", chars "moving average"]
  | .Portfolio => [chars "portfolio", chars "holdings", chars "my stocks",
      chars "allocation", chars "positions", chars "my holdings"]
  | .WEBSEARCH => [chars "news", chars "latest", chars "recent",
      chars "breaking", chars "headlines", chars "update"]
  | .RAG => [chars "explain", chars "what is", chars "define",
      chars "how does", chars "why", chars "tell me about"]
  | .EMAIL => [chars "email", chars "send", chars "notify", chars "report",
      chars "snapshot", chars "mail"]

def QueryIntentA.weak : AgentType → List (List Char)
  | .STOCK => [chars "current", chars "value", chars "worth"]
  | .Portfolio => [chars "performance", chars "return", chars "total"]
  | .WEBSEARCH => [chars "today", chars "this week", chars "current"]
  | .RAG => [chars "information", chars "details", chars "about"]
  | .EMAIL => [chars "daily", chars "summary"]

/-- Strong-keyword match count against the lowercased query. -/
def QueryIntentA.strongCount (ql : List Char) (a : AgentType) : ℕ :=
  (QueryIntentA.strong a).countP (fun kw => isSub kw ql)

/-- Weak-keyword match count against the lowercased query. -/
def QueryIntentA.weakCount (ql : List Char) (a : AgentType) : ℕ :=
  (QueryIntentA.weak a).countP (fun kw => isSub kw ql)

/-- Transcription of `mcp_agent.py` `QueryIntent.analyze`: +0.7 per strong
keyword occurrence, +0.3 per weak keyword occurrence, capped at 1.0; an agent
absent from the score dict reads as 0.0 via `intent_scores.get(agent_type, 0.0)`.
Scores in tenths. -/
def QueryIntentA.analyze (q : List Char) (a : AgentType) : ℕ :=
  let ql := lowerStr q
  min (7 * QueryIntentA.strongCount ql a + 3 * QueryIntentA.weakCount ql a) 10

/-! ## Intent scoring, `MCP/intent.py` revision (lines 9-121) -/

def QueryIntent.strong : AgentType → List (List Char)
  | .RAG => [chars "explain", chars "what is", chars "define",
      chars "how does", chars "why", chars "tell me about",
      chars "Proxy Statements", chars "Annual Reports"]
  | a => QueryIntentA.strong a

def QueryIntent.weak : AgentType → List (List Char)
  | a => QueryIntentA.weak a

def QueryIntent.strongCount (ql : List Char) (a : AgentType) : ℕ :=
  (QueryIntent.strong a).countP (fun kw => isSub kw ql)

def QueryIntent.weakCount (ql : List Char) (a : AgentType) : ℕ :=
  (QueryIntent.weak a).countP (fun kw => isSub kw ql)

/-- Trigger words of the stock entity boost in `MCP/intent.py` line 77. -/
def QueryIntent.stockWords : List (List Char) :=
  [chars "stock", chars "price", chars "ticker", chars "quote", chars "shares"]

/-- Common stock names of `MCP/intent.py` lines 82-96. -/
def QueryIntent.commonStocks : List (List Char) :=
  [chars "tesla", chars "apple", chars "microsoft", chars "google",
   chars "amazon", chars "meta", chars "nvidia", chars "tsla", chars "aapl",
   chars "msft", chars "googl", chars "amzn", chars "nvda"]

def QueryIntent.portfolioWords : List (List Char) :=
  [chars "my", chars "holdings", chars "portfolio", chars "top", chars "allocation"]

def QueryIntent.emailWords : List (List Char) :=
  [chars "send", chars "email", chars "mail", chars "snapshot", chars "report",
   chars "daily"]

def QueryIntent.newsWords : List (List Char) :=
  [chars "news", chars "latest", chars "recent", chars "update", chars "headlines"]

/-- Base score of `MCP/intent.py` lines 64-74: 0.7·strong + 0.2·(strong−1)
added when strong>0, plus 0.3·weak added when weak>0.  In tenths. -/
def QueryIntent.base (ql : List Char) (b : AgentType) : ℕ :=
  let s := QueryIntent.strongCount ql b
  let w := QueryIntent.weakCount ql b
  (if s > 0 then 7 * s + 2 * (s - 1) else 0) + (if w > 0 then 3 * w else 0)

/-- Score dict after the stock entity boost (`intent.py` lines 77-98). -/
def QueryIntent.afterStockBoost (ql : List Char) (b : AgentType) : ℕ :=
  if b = .STOCK ∧ (QueryIntent.stockWords.any (fun kw => isSub kw ql)
      ∧ QueryIntent.commonStocks.any (fun kw => isSub kw ql)) then
    max (QueryIntent.base ql b) 8
  else QueryIntent.base ql b

/-- Score dict after the portfolio boost (`intent.py` lines 101-105). -/
def QueryIntent.afterPortfolioBoost (ql : List Char) (b : AgentType) : ℕ :=
  if b = .Portfolio ∧ QueryIntent.portfolioWords.any (fun kw => isSub kw ql) then
    max (QueryIntent.afterStockBoost ql b) 6
  else QueryIntent.afterStockBoost ql b

/-- Score dict after the email boost (`intent.py` lines 108-112). -/
def QueryIntent.afterEmailBoost (ql : List Char) (b : AgentType) : ℕ :=
  if b = .EMAIL ∧ QueryIntent.emailWords.any (fun kw => isSub kw ql) then
    max (QueryIntent.afterPortfolioBoost ql b) 7
  else QueryIntent.afterPortfolioBoost ql b

/-- Score dict after the news boost (`intent.py` lines 115-119). -/
def QueryIntent.afterNewsBoost (ql : List Char) (b : AgentType) : ℕ :=
  if b = .WEBSEARCH ∧ QueryIntent.newsWords.any (fun kw => isSub kw ql) then
    max (QueryIntent.afterEmailBoost ql b) 7
  else QueryIntent.afterEmailBoost ql b

/-- Transcription of `MCP/intent.py` `QueryIntent.analyze`: the base score,
the four sequential entity-boost dictionary updates, then the 1.0 cap.
Scores in tenths. -/
def QueryIntent.analyze (q : List Char) (a : AgentType) : ℕ :=
  min (QueryIntent.afterNewsBoost (lowerStr q) a) 10

/-! ## Claim-side scoring formula (spec §4.1) -/

/-- Spec formula `clamp(0.7·strong + 0.2·max(strong−1,0) + 0.3·weak, 0, 1)` in
tenths (the lower clamp is vacuous over ℕ). -/
def specClampScore (s w : ℕ) : ℕ := min (7 * s + 2 * (s - 1) + 3 * w) 10

/-- Spec-side boost floor: the deterministic entity-pattern boosts of
`MCP/intent.py`, as "raise the score to at least this floor". -/
def specBoostFloor (q : List Char) (a : AgentType) : ℕ :=
  let ql := lowerStr q
  match a with
  | .STOCK =>
      if QueryIntent.stockWords.any (fun kw => isSub kw ql)
          ∧ QueryIntent.commonStocks.any (fun kw => isSub kw ql) then 8 else 0
  | .Portfolio =>
      if QueryIntent.portfolioWords.any (fun kw => isSub kw ql) then 6 else 0
  | .EMAIL =>
      if QueryIntent.emailWords.any (fun kw => isSub kw ql) then 7 else 0
  | .WEBSEARCH =>
      if QueryIntent.newsWords.any (fun kw => isSub kw ql) then 7 else 0
  | .RAG => 0

/-! ## Trigger patterns (`mcp_agent.py` lines 125-178)

Every compiled pattern is an unanchored, case-insensitive alternation of
literal words, except the stock alternative `\d+[- ]?day`.  We match against the
lowercased query, which is equivalent to `re.I` search for these ASCII
patterns. -/

/-- Tail test for the regex alternative `\d+[- ]?day` after at least one digit
has been seen: consume further digits greedily, then an optional `-` or space,
then the literal `day`.  (Backtracking inside `\d+` cannot help here because
neither `-`, ` ` nor `d` is a digit.) -/
def afterDigitsDay (l : List Char) : Bool :=
  match l with
  | [] => false
  | c :: t =>
      if c.isDigit then afterDigitsDay t
      else
        (chars "day").isPrefixOf (c :: t)
        || (decide (c = '-') || decide (c = ' ')) && (chars "day").isPrefixOf t

/-- Unanchored search for `\d+[- ]?day`. -/
def patNumDay (l : List Char) : Bool :=
  match l with
  | [] => false
  | c :: t => (c.isDigit && afterDigitsDay t) || patNumDay t

/-- Literal alternation search: some alternative occurs as a substring. -/
def anyWord (words : List (List Char)) (ql : List Char) : Bool :=
  words.any (fun w => isSub w ql)

/-- `AgentConfig` of `mcp_agent.py` lines 19-28 (the `MCP/enums.py` dataclass is
identical).  The compiled regex is modelled as a Boolean matcher on the
lowercased query. -/
structure AgentConfig where
  type : AgentType
  pattern : List Char → Bool
  priority : ℕ
  dependencies : List AgentType
  requiredKeywords : List (List Char)
  cacheTtl : ℕ

/-- Iteration order of the `self.agent_configs` dict (insertion order of the
constructor, `mcp_agent.py` lines 125-178). -/
def configOrder : List AgentType :=
  [.STOCK, .WEBSEARCH, .Portfolio, .RAG, .EMAIL]

/-- The static `agent_configs` table of `MCPAgent.__init__`. -/
def getConfig : AgentType → AgentConfig
  | .STOCK =>
      { type := .STOCK
        pattern := fun ql =>
          anyWord [chars "price", chars "current price", chars "ma",
            chars "moving average", chars "stock summary", chars "ticker",
            chars "quote"] ql || patNumDay ql
        priority := 1
        dependencies := []
        requiredKeywords := [chars "ticker", chars "stock", chars "price"]
        cacheTtl := 60 }
  | .WEBSEARCH =>
      { type := .WEBSEARCH
        pattern := anyWord [chars "news", chars "latest", chars "update",
          chars "headlines", chars "recent", chars "breaking"]
        priority := 2
        dependencies := []
        requiredKeywords := [chars "news", chars "latest", chars "update"]
        cacheTtl := 300 }
  | .Portfolio =>
      { type := .Portfolio
        pattern := anyWord [chars "portfolio", chars "top holdings",
          chars "sector allocation", chars "my stocks", chars "my holdings"]
        priority := 3
        dependencies := []
        requiredKeywords := [chars "portfolio", chars "holdings"]
        cacheTtl := 120 }
  | .RAG =>
      { type := .RAG
        pattern := anyWord [chars "explain", chars "what is", chars "who",
          chars "give info", chars "define", chars "describe", chars "tell me"]
        priority := 4
        dependencies := []
        requiredKeywords := [chars "explain", chars "what", chars "define"]
        cacheTtl := 600 }
  | .EMAIL =>
      { type := .EMAIL
        pattern := anyWord [chars "daily snapshot", chars "send email",
          chars "email report", chars "notify", chars "mail"]
        priority := 5
        dependencies := [.Portfolio]
        requiredKeywords := [chars "email", chars "send", chars "notify"]
        cacheTtl := 0 }

/-! ## Routing (`MCPAgent._route_query`, `mcp_agent.py` lines 400-423) -/

/-- A Router candidate `(agent_type, query, confidence)`; confidence in
tenths. -/
abbrev Candidate := AgentType × List Char × ℕ

/-- Confidence after the pattern boost of `_route_query` lines 406-410:
`confidence = max(confidence, 0.6)` when the trigger pattern matches. -/
def routeConfidence (q : List Char) (a : AgentType) : ℕ :=
  let c := QueryIntentA.analyze q a
  if (getConfig a).pattern (lowerStr q) then max c 6 else c

/-- Ascending-key comparison for the Python sort
`key=lambda x: (-confidence, priority)`. -/
def candLE (x y : Candidate) : Bool :=
  decide (y.2.2 < x.2.2)
  || (decide (x.2.2 = y.2.2) && decide ((getConfig x.1).priority ≤ (getConfig y.1).priority))

/-- Stable insertion into a sorted candidate list. -/
def insertCand (x : Candidate) : List Candidate → List Candidate
  | [] => [x]
  | y :: ys => if candLE x y then x :: y :: ys else y :: insertCand x ys

/-- Stable sort modelling `list.sort` with the key above (all priorities are
distinct, so any correct sort produces the same list). -/
def sortCands : List Candidate → List Candidate
  | [] => []
  | x :: xs => insertCand x (sortCands xs)

/-- Transcription of `MCPAgent._route_query` (threshold in tenths;
`confidence_threshold` defaults to 0.4 = 4): keep agents whose boosted
confidence reaches the threshold, fall back to `(RAG, query, 0.5)` when none
does, then sort by confidence descending / priority ascending. -/
def MCPAgent._route_query (threshold : ℕ) (q : List Char) : List Candidate :=
  let selected := configOrder.filterMap (fun a =>
    let conf := routeConfidence q a
    if threshold ≤ conf then some (a, q, conf) else none)
  let selected := if selected = [] then [(.RAG, q, 5)] else selected
  sortCands selected

/-! ## Cache keys (`_get_cache_key`, identical in `mcp_agent.py` lines 183-184
and `MCP/cache.py` lines 16-17) -/

/-- Argument passed to Python's builtin `hash` inside `_get_cache_key`:
`query.lower().strip()`. -/
def normQueryKey (q : List Char) : List Char := stripStr (lowerStr q)

/-- Transcription of `_get_cache_key`, i.e.
`f"{agent_type}:{hash(query.lower().strip())}"`.  Python's builtin `hash` is an
opaque, per-process deterministic function of its string argument, so the key
is modelled as the pair (agent label, hash argument); within one process two
keys coincide exactly when these pairs do (a hash collision could only merge
keys, never split them). -/
def CacheManager._get_cache_key (agentType : String) (q : List Char) :
    String × List Char :=
  (agentType, normQueryKey q)

/-- The claim's equivalence "equal up to letter case and whitespace": equal
after lowercasing and deleting every whitespace character. -/
def eqUpToCaseWS (q1 q2 : List Char) : Prop :=
  (lowerStr q1).filter (fun c => !pyIsSpace c)
    = (lowerStr q2).filter (fun c => !pyIsSpace c)

/-! ## Python runtime values (JSON-safe fragment)

`PyVal` models the Python values the orchestrator passes around: `None`,
booleans, (arbitrary-precision) ints, strings, lists, and insertion-ordered
dicts with string keys.  Floats are outside the model (see the header); the
payloads relevant to the claims are ints, strings, lists and dicts. -/

inductive PyVal where
  | none
  | bool (b : Bool)
  | int (n : Int)
  | str (s : List Char)
  | list (xs : List PyVal)
  | dict (entries : List (List Char × PyVal))

/-- Python truthiness (`bool(v)`) on the modelled fragment. -/
def PyVal.truthy : PyVal → Bool
  | .none => false
  | .bool b => b
  | .int n => n != 0
  | .str s => !s.isEmpty
  | .list xs => !xs.isEmpty
  | .dict d => !d.isEmpty

/-- Decimal digit character (`0`-`9`). -/
def digitChar (d : ℕ) : Char := Char.ofNat (48 + d)

/-- Fuel-driven big-endian decimal digits of a positive number; any
`fuel ≥ n` computes all digits (each step divides by 10). -/
def natDecAux : ℕ → ℕ → List Char
  | 0, _ => []
  | _ + 1, 0 => []
  | fuel + 1, n + 1 => natDecAux fuel ((n + 1) / 10) ++ [digitChar ((n + 1) % 10)]

/-- Decimal digits of a natural number (Python `str(n)` for `n ≥ 0`). -/
def natDecimal (n : ℕ) : List Char :=
  if n = 0 then ['0'] else natDecAux n n

/-- Python `str(i)` for an int. -/
def intDecimal (i : ℤ) : List Char :=
  if i < 0 then '-' :: natDecimal i.natAbs else natDecimal i.natAbs

/-- Python dict lookup `d[k]` (string keys; `none` models `KeyError`). -/
def PyVal.getItem (v : PyVal) (k : List Char) : Option PyVal :=
  match v with
  | .dict entries =>
      match entries.find? (fun e => decide (e.1 = k)) with
      | some e => some e.2
      | _ => Option.none
  | _ => Option.none

/-- Python `len(v)`; `none` models the `TypeError` of unsized values. -/
def PyVal.pyLen : PyVal → Option ℕ
  | .str s => some s.length
  | .list xs => some xs.length
  | .dict d => some d.length
  | _ => Option.none

/-- Escapes of Python `repr` for one character inside a single-quoted string
literal (the sources only ever single-quote: none of the modelled payload
strings contain a quote character). -/
def pyReprChar (c : Char) : List Char :=
  if c = '\\' then ['\\', '\\']
  else if c = '\x27' then ['\\', '\x27']
  else if c = '\n' then ['\\', 'n']
  else if c = '\r' then ['\\', 'r']
  else if c = '\t' then ['\\', 't']
  else [c]

/-- Python `repr` of a string: single-quoted with escapes. -/
def strRepr (s : List Char) : List Char :=
  '\x27' :: (s.flatMap pyReprChar ++ ['\x27'])

mutual

/-- Python `repr(v)` on the modelled fragment (list/dict elements recursively
`repr`-ed, strings single-quoted). -/
def PyVal.pyRepr : PyVal → List Char
  | .none => chars "None"
  | .bool true => chars "True"
  | .bool false => chars "False"
  | .int i => intDecimal i
  | .str s => strRepr s
  | .list xs => '[' :: (PyVal.pyReprInner xs ++ [']'])
  | .dict d => '\x7b' :: (PyVal.pyReprEntries d ++ ['\x7d'])

/-- Comma-joined `repr`s of list elements. -/
def PyVal.pyReprInner : List PyVal → List Char
  | [] => []
  | [x] => PyVal.pyRepr x
  | x :: y :: rest => PyVal.pyRepr x ++ chars ", " ++ PyVal.pyReprInner (y :: rest)

/-- Comma-joined `repr(k): repr(v)` of dict entries, in insertion order. -/
def PyVal.pyReprEntries : List (List Char × PyVal) → List Char
  | [] => []
  | [(k, v)] => strRepr k ++ chars ": " ++ PyVal.pyRepr v
  | (k, v) :: e :: rest =>
      strRepr k ++ chars ": " ++ PyVal.pyRepr v ++ chars ", "
        ++ PyVal.pyReprEntries (e :: rest)

end

/-- Python `str(v)` (also f-string interpolation `f"{v}"`): identity on
strings, `repr` otherwise. -/
def PyVal.pyStr : PyVal → List Char
  | .str s => s
  | v => PyVal.pyRepr v

/-- Python `sep.join(xs)`. -/
def joinSep (sep : List Char) : List (List Char) → List Char
  | [] => []
  | [x] => x
  | x :: y :: rest => x ++ sep ++ joinSep sep (y :: rest)

/-! ## Per-provider cache of `MCPAgent` (`mcp_agent.py` lines 183-221) -/

/-- Association-list lookup modelling Python dict access. -/
def alookup {κ α : Type} [DecidableEq κ] (k : κ) : List (κ × α) → Option α
  | [] => Option.none
  | e :: rest => if e.1 = k then some e.2 else alookup k rest

/-- Association-list update modelling Python dict assignment (replace in place,
else append). -/
def aset {κ α : Type} [DecidableEq κ] (k : κ) (v : α) : List (κ × α) → List (κ × α)
  | [] => [(k, v)]
  | e :: rest => if e.1 = k then (k, v) :: rest else e :: aset k v rest

/-- Association-list deletion modelling Python `del d[k]`. -/
def aremove {κ α : Type} [DecidableEq κ] (k : κ) : List (κ × α) → List (κ × α)
  | [] => []
  | e :: rest => if e.1 = k then rest else e :: aremove k rest

abbrev CacheKey := String × List Char

/-- Mutable cache state of one `MCPAgent`: `_cache` and `_cache_timestamps`
(initialised to `{}` when `enable_cache` else `None`; the `None` case is
folded into `enableCache = false`, whose guard behaves identically). -/
structure AgentCacheState where
  enableCache : Bool
  cacheMap : List (CacheKey × List Char)
  tsMap : List (CacheKey × ℕ)

/-- Python `AgentType(agent_type)` conversion from the string label. -/
def agentOfLabel (s : String) : Option AgentType :=
  if s = "stock" then some .STOCK
  else if s = "rag" then some .RAG
  else if s = "portfolio" then some .Portfolio
  else if s = "email" then some .EMAIL
  else if s = "websearch" then some .WEBSEARCH
  else Option.none

/-- Transcription of `MCPAgent._get_cached` (lines 186-206).  The guard
`if not self.enable_cache or not self._cache` treats the *empty* cache dict as
disabled (Python truthiness); a stale hit deletes both entries; the bare
`except: pass` swallows a missing-timestamp `KeyError` as a miss. -/
def MCPAgent._get_cached (st : AgentCacheState) (label : String) (q : List Char)
    (now : ℕ) : Option (List Char) × AgentCacheState :=
  if !st.enableCache || st.cacheMap.isEmpty then (Option.none, st)
  else
    match agentOfLabel label with
    | Option.none => (Option.none, st)
    | some a =>
        let ttl := (getConfig a).cacheTtl
        if ttl = 0 then (Option.none, st)
        else
          let key := CacheManager._get_cache_key label q
          match alookup key st.cacheMap with
          | some v =>
              match alookup key st.tsMap with
              | some ts =>
                  if now - ts < ttl then (some v, st)
                  else (Option.none,
                    { st with cacheMap := aremove key st.cacheMap,
                              tsMap := aremove key st.tsMap })
              | Option.none => (Option.none, st)
          | Option.none => (Option.none, st)

/-- Transcription of `MCPAgent._set_cached` (lines 208-221): the same
empty-dict guard silently drops every write to an empty cache, so the cache of
a freshly constructed `MCPAgent` can never be populated. -/
def MCPAgent._set_cached (st : AgentCacheState) (label : String) (q : List Char)
    (result : List Char) (now : ℕ) : AgentCacheState :=
  if !st.enableCache || st.cacheMap.isEmpty then st
  else
    match agentOfLabel label with
    | Option.none => st
    | some a =>
        if (getConfig a).cacheTtl = 0 then st
        else
          let key := CacheManager._get_cache_key label q
          { st with cacheMap := aset key result st.cacheMap,
                    tsMap := aset key now st.tsMap }

/-! ## Provider-call outcomes and the request environment -/

/-- Outcome of a blocking `run_in_executor` call: a value or a raised
exception. -/
inductive ExecOutcome where
  | ok (v : PyVal)
  | exc

/-- Outcome of an awaited coroutine wrapped by `_call_with_timeout`. -/
inductive AsyncOutcome where
  | ok (v : PyVal)
  | exc
  | timeout

/-- Transcription of `MCPAgent._call_with_timeout` (lines 226-232): an
`asyncio.TimeoutError` or any other exception is converted to `None`. -/
def MCPAgent._call_with_timeout : AsyncOutcome → Option PyVal
  | .ok v => some v
  | .timeout => Option.none
  | .exc => Option.none

/-- Oracle fixing the underlying providers' responses for one request.  A
handler consumes only its own agent's fields. -/
structure AgentEnv where
  stockRes : ExecOutcome
  ragHasAsync : Bool
  ragAsyncRes : AsyncOutcome
  ragSyncRes : ExecOutcome
  portfolioRunRes : ExecOutcome
  portfolioTopRes : ExecOutcome
  portfolioSectorsRes : ExecOutcome
  emailRes : ExecOutcome
  websearchRes : ExecOutcome

/-! ## Handler coroutines (`mcp_agent.py` lines 234-395) -/

/-- Python `f"{v:.2f}"` for the modelled numeric values (bools are numeric in
Python); other types raise (`none`). -/
def fmt2f : PyVal → Option (List Char)
  | .int i => some (intDecimal i ++ chars ".00")
  | .bool b => some ((if b then chars "1" else chars "0") ++ chars ".00")
  | _ => Option.none

/-- Python `f"{v:.1f}"` for the modelled numeric values. -/
def fmt1f : PyVal → Option (List Char)
  | .int i => some (intDecimal i ++ chars ".0")
  | .bool b => some ((if b then chars "1" else chars "0") ++ chars ".0")
  | _ => Option.none

/-- Fuel-driven worker for `str.replace` (leftmost, non-overlapping); fuel
`s.length` suffices since every step consumes at least one character of `s`. -/
def replaceStrAux (pat rep : List Char) : ℕ → List Char → List Char
  | 0, s => s
  | _ + 1, [] => []
  | fuel + 1, c :: rest =>
      if pat.isPrefixOf (c :: rest) ∧ pat ≠ [] then
        rep ++ replaceStrAux pat rep fuel (rest.drop (pat.length - 1))
      else c :: replaceStrAux pat rep fuel rest

/-- Python `s.replace(old, new)` for nonempty `old`: leftmost, non-overlapping
replacement of every occurrence. -/
def replaceStr (s pat rep : List Char) : List Char :=
  replaceStrAux pat rep s.length s

/-- Formatting branch of `_handle_stock` (lines 247-260); `none` models an
exception escaping into the handler's `except` (e.g. a missing `'ticker'` key
or a non-numeric moving-average value). -/
def formatStock (res : PyVal) : Option (List Char) :=
  match res with
  | .dict entries =>
      if (PyVal.getItem res (chars "current_price")).isSome then
        match PyVal.getItem res (chars "ticker"),
            PyVal.getItem res (chars "current_price") with
        | some t, some p =>
            some (chars "**Stock Price:** " ++ PyVal.pyStr t
              ++ chars " is currently trading at **$" ++ PyVal.pyStr p ++ chars "**")
        | _, _ => Option.none
      else
        match entries.find? (fun e => (chars "_day_ma").isSuffixOf e.1) with
        | some e =>
            let period := replaceStr (replaceStr e.1 (chars "_") (chars "-"))
              (chars "day-ma") (chars "day MA")
            match PyVal.getItem res (chars "ticker"), PyVal.getItem res e.1 with
            | some t, some v =>
                match fmt2f v with
                | some f =>
                    some (chars "**Moving Average:** " ++ PyVal.pyStr t ++ chars " "
                      ++ period ++ chars " = **$" ++ f ++ chars "**")
                | Option.none => Option.none
            | _, _ => Option.none
        | Option.none => some (chars "**Stock Info:** " ++ PyVal.pyStr res)
  | _ => some (chars "**Stock Info:** " ++ PyVal.pyStr res)

/-- A handler's result: response (Python `None` or a string), updated cache
state, and the log of underlying provider invocations it issued. -/
abbrev HandlerOut := Option (List Char) × AgentCacheState × List AgentType

/-- Shared shape of the cached handlers: `cached = self._get_cached(...)`;
`if cached: return cached` (Python truthiness — an empty cached string falls
through to the provider call). -/
def withProviderCache (label : String)
    (body : AgentCacheState → ℕ → List Char → AgentEnv → HandlerOut)
    (st : AgentCacheState) (now : ℕ) (q : List Char) (env : AgentEnv) :
    HandlerOut :=
  let r := MCPAgent._get_cached st label q now
  match r.1 with
  | some c => if !c.isEmpty then (some c, r.2, []) else body r.2 now q env
  | Option.none => body r.2 now q env

/-- Semaphore block of `_handle_stock` (lines 239-267). -/
def MCPAgent.stockBody (st : AgentCacheState) (now : ℕ) (q : List Char)
    (env : AgentEnv) : HandlerOut :=
  match env.stockRes with
  | .exc => (Option.none, st, [.STOCK])
  | .ok res =>
      if !res.truthy || isSub (chars "error") (lowerStr (PyVal.pyStr res)) then
        (Option.none, st, [.STOCK])
      else
        match formatStock res with
        | Option.none => (Option.none, st, [.STOCK])
        | some result =>
            let st' := if !result.isEmpty then
                MCPAgent._set_cached st "stock" q result now
              else st
            (some result, st', [.STOCK])

/-- Transcription of `MCPAgent._handle_stock` (lines 234-267). -/
def MCPAgent._handle_stock : AgentCacheState → ℕ → List Char → AgentEnv → HandlerOut :=
  withProviderCache "stock" MCPAgent.stockBody

/-- Semaphore block of `_handle_rag` (lines 274-294): the async variant is used
when the agent has one (wrapped in `_call_with_timeout`), else the blocking
variant in the executor; any exception yields `None`. -/
def MCPAgent.ragBody (st : AgentCacheState) (now : ℕ) (q : List Char)
    (env : AgentEnv) : HandlerOut :=
  let res : Option PyVal :=
    if env.ragHasAsync then MCPAgent._call_with_timeout env.ragAsyncRes
    else match env.ragSyncRes with
      | .ok v => some v
      | .exc => Option.none
  match res with
  | some v =>
      if v.truthy then
        let result := chars "**Information:** " ++ PyVal.pyStr v
        (some result, MCPAgent._set_cached st "rag" q result now, [.RAG])
      else (Option.none, st, [.RAG])
  | Option.none => (Option.none, st, [.RAG])

/-- Transcription of `MCPAgent._handle_rag` (lines 269-294). -/
def MCPAgent._handle_rag : AgentCacheState → ℕ → List Char → AgentEnv → HandlerOut :=
  withProviderCache "rag" MCPAgent.ragBody

/-- One line `f"  • {t['ticker']}: ${t['value']:.2f}"` of the top-holdings
block (line 326); `none` models a raised `KeyError`/`TypeError`. -/
def holdingLine (t : PyVal) : Option (List Char) :=
  match PyVal.getItem t (chars "ticker"), PyVal.getItem t (chars "value") with
  | some tk, some v =>
      (fmt2f v).map (fun f => chars "  • " ++ PyVal.pyStr tk ++ chars ": $" ++ f)
  | _, _ => Option.none

/-- Top-holdings block of `_handle_portfolio` (lines 324-328): outer `none`
models an exception escaping the handler, inner `none` a skipped block. -/
def portfolioTopPart (top : ExecOutcome) : Option (Option (List Char)) :=
  match top with
  | .exc => some Option.none
  | .ok t =>
      if !t.truthy then some Option.none
      else
        match t.pyLen with
        | Option.none => Option.none
        | some n =>
            if n = 0 then some Option.none
            else
              match t with
              | .list ts =>
                  match ts.mapM holdingLine with
                  | some lines =>
                      some (some (chars "\n**Top 5 Holdings:**\n"
                        ++ joinSep (chars "\n") lines))
                  | Option.none => Option.none
              | _ => Option.none

/-- One line `f"  • {s}: {p:.1f}%"` of the sector block (line 332). -/
def sectorLine (e : List Char × PyVal) : Option (List Char) :=
  (fmt1f e.2).map (fun f => chars "  • " ++ e.1 ++ chars ": " ++ f ++ chars "%")

/-- Sector-allocation block of `_handle_portfolio` (lines 330-334). -/
def portfolioSectorsPart (sec : ExecOutcome) : Option (Option (List Char)) :=
  match sec with
  | .exc => some Option.none
  | .ok sv =>
      if !sv.truthy then some Option.none
      else
        match sv.pyLen with
        | Option.none => Option.none
        | some n =>
            if n = 0 then some Option.none
            else
              match sv with
              | .dict entries =>
                  match entries.mapM sectorLine with
                  | some ls =>
                      some (some (chars "\n**Sector Allocation:**\n"
                        ++ joinSep (chars "\n") ls))
                  | Option.none => Option.none
              | _ => Option.none

/-- Semaphore block of `_handle_portfolio` (lines 301-341): three concurrent
executor calls gathered with `return_exceptions=True`, then the summary is
assembled; an exception during assembly yields `None` with nothing cached. -/
def MCPAgent.portfolioBody (st : AgentCacheState) (now : ℕ) (q : List Char)
    (env : AgentEnv) : HandlerOut :=
  match env.portfolioRunRes with
  | .exc => (Option.none, st, [.Portfolio])
  | .ok analysis =>
      if !analysis.truthy then (Option.none, st, [.Portfolio])
      else
        match portfolioTopPart env.portfolioTopRes with
        | Option.none => (Option.none, st, [.Portfolio])
        | some topPart =>
            match portfolioSectorsPart env.portfolioSectorsRes with
            | Option.none => (Option.none, st, [.Portfolio])
            | some secPart =>
                let parts := [chars "**Portfolio Summary:**"]
                  ++ topPart.toList ++ secPart.toList
                let result := joinSep (chars "\n") parts
                (some result,
                  MCPAgent._set_cached st "portfolio" q result now, [.Portfolio])

/-- Transcription of `MCPAgent._handle_portfolio` (lines 296-341). -/
def MCPAgent._handle_portfolio : AgentCacheState → ℕ → List Char → AgentEnv → HandlerOut :=
  withProviderCache "portfolio" MCPAgent.portfolioBody

/-- Transcription of `MCPAgent._handle_email` (lines 343-374): no cache read or
write; the normalisation of the query (line 347-353) only changes what is
passed to the agent, whose response is the env oracle; the response is rejected
when falsy or containing "unrecognized"/"error". -/
def MCPAgent._handle_email (st : AgentCacheState) (_now : ℕ) (_q : List Char)
    (env : AgentEnv) : HandlerOut :=
  match env.emailRes with
  | .exc => (Option.none, st, [.EMAIL])
  | .ok res =>
      if res.truthy
          && !isSub (chars "unrecognized") (lowerStr (PyVal.pyStr res))
          && !isSub (chars "error") (lowerStr (PyVal.pyStr res)) then
        (some (chars "**Email:** " ++ PyVal.pyStr res), st, [.EMAIL])
      else (Option.none, st, [.EMAIL])

/-- Semaphore block of `_handle_websearch` (lines 381-395). -/
def MCPAgent.websearchBody (st : AgentCacheState) (now : ℕ) (q : List Char)
    (env : AgentEnv) : HandlerOut :=
  match env.websearchRes with
  | .exc => (Option.none, st, [.WEBSEARCH])
  | .ok res =>
      if res.truthy then
        let result := chars "**Latest News:**\n" ++ PyVal.pyStr res
        (some result, MCPAgent._set_cached st "websearch" q result now, [.WEBSEARCH])
      else (Option.none, st, [.WEBSEARCH])

/-- Transcription of `MCPAgent._handle_websearch` (lines 376-395). -/
def MCPAgent._handle_websearch : AgentCacheState → ℕ → List Char → AgentEnv → HandlerOut :=
  withProviderCache "websearch" MCPAgent.websearchBody

/-- The `handler_map` of `_execute_agents` (lines 432-438). -/
def runHandler (a : AgentType) (st : AgentCacheState) (now : ℕ) (q : List Char)
    (env : AgentEnv) : HandlerOut :=
  match a with
  | .STOCK => MCPAgent._handle_stock st now q env
  | .RAG => MCPAgent._handle_rag st now q env
  | .Portfolio => MCPAgent._handle_portfolio st now q env
  | .EMAIL => MCPAgent._handle_email st now q env
  | .WEBSEARCH => MCPAgent._handle_websearch st now q env

/-- Sequential threading of one `asyncio.gather` wave.  Distinct agents touch
disjoint cache keys (every key starts with the agent's own label), so any
interleaving of a wave's coroutines yields the same results and final cache;
the model fixes candidate-list order.  Results are returned in task order, as
`gather` does. -/
def runWave (cands : List Candidate) (st : AgentCacheState) (now : ℕ)
    (env : AgentEnv) : List (Option (List Char)) × AgentCacheState × List AgentType :=
  match cands with
  | [] => ([], st, [])
  | c :: rest =>
      let h := runHandler c.1 st now c.2.1 env
      let r := runWave rest h.2.1 now env
      (h.1 :: r.1, r.2.1, h.2.2 ++ r.2.2)

/-- Transcription of `MCPAgent._execute_agents` (lines 428-472): split the
candidates into the independent wave (empty dependency set) and the dependent
wave (nonempty dependency set, Python truthiness of `config.dependencies`),
await the independent wave to completion, then run the dependent wave. -/
def MCPAgent._execute_agents (cands : List Candidate) (st : AgentCacheState)
    (now : ℕ) (env : AgentEnv) :
    List (Option (List Char)) × AgentCacheState × List AgentType :=
  let indep := cands.filter (fun c => (getConfig c.1).dependencies.isEmpty)
  let dep := cands.filter (fun c => !(getConfig c.1).dependencies.isEmpty)
  let w1 := runWave indep st now env
  let w2 := runWave dep w1.2.1 now env
  (w1.1 ++ w2.1, w2.2.1, w1.2.2 ++ w2.2.2)

/-- First-50-characters dedup loop of `_merge_responses` (lines 485-491). -/
def dedupBy50 (seen : List (List Char)) : List (List Char) → List (List Char)
  | [] => []
  | r :: rest =>
      let key := r.take 50
      if key ∈ seen then dedupBy50 seen rest
      else r :: dedupBy50 (key :: seen) rest

/-- Transcription of `MCPAgent._merge_responses` (lines 477-493): keep truthy
responses, dedup by 50-character prefix, join with blank lines; the apology
string is returned when nothing remains. -/
def MCPAgent._merge_responses (responses : List (Option (List Char))) : List Char :=
  let valid := (responses.filterMap id).filter (fun r => !r.isEmpty)
  if valid.isEmpty then
    chars "I couldn\x27t find a relevant answer. Could you rephrase your question?"
  else joinSep (chars "\n\n") (dedupBy50 [] valid)

/-- Observable outcome of one `MCPAgent.run` call.  `state` and `callLog`
expose the cache state and the underlying provider invocations to the
theorems. -/
structure RunResult where
  response : List Char
  selectedAgents : List String
  state : AgentCacheState
  callLog : List AgentType

/-- Transcription of `MCPAgent.run` (lines 498-519): route, record the selected
agent names, execute the waves, merge.  This revision performs no
final-response cache lookup and returns no cache-hit flag. -/
def MCPAgent.run (threshold : ℕ) (q : List Char) (st : AgentCacheState)
    (now : ℕ) (env : AgentEnv) : RunResult :=
  let agentsToRun := MCPAgent._route_query threshold q
  let names := agentsToRun.map (fun c => c.1.value)
  let ex := MCPAgent._execute_agents agentsToRun st now env
  { response := MCPAgent._merge_responses ex.1
    selectedAgents := names
    state := ex.2.1
    callLog := ex.2.2 }

/-- The independent wave of `_execute_agents` (spec: wave 1). -/
def wave1 (cands : List Candidate) : List Candidate :=
  cands.filter (fun c => (getConfig c.1).dependencies.isEmpty)

/-- The dependent wave of `_execute_agents` (spec: wave 2). -/
def wave2 (cands : List Candidate) : List Candidate :=
  cands.filter (fun c => !(getConfig c.1).dependencies.isEmpty)

/-- Candidates in execution order: independent wave then dependent wave. -/
def waveOrder (cands : List Candidate) : List Candidate :=
  wave1 cands ++ wave2 cands

/-- Agreement of two request environments on one agent's own oracle fields. -/
def envAgreeOn (a : AgentType) (env env' : AgentEnv) : Prop :=
  match a with
  | .STOCK => env.stockRes = env'.stockRes
  | .RAG => env.ragHasAsync = env'.ragHasAsync
      ∧ env.ragAsyncRes = env'.ragAsyncRes ∧ env.ragSyncRes = env'.ragSyncRes
  | .Portfolio => env.portfolioRunRes = env'.portfolioRunRes
      ∧ env.portfolioTopRes = env'.portfolioTopRes
      ∧ env.portfolioSectorsRes = env'.portfolioSectorsRes
  | .EMAIL => env.emailRes = env'.emailRes
  | .WEBSEARCH => env.websearchRes = env'.websearchRes

/-- Environment in which every provider call raises. -/
def envDefault : AgentEnv :=
  { stockRes := .exc, ragHasAsync := false, ragAsyncRes := .exc,
    ragSyncRes := .exc, portfolioRunRes := .exc, portfolioTopRes := .exc,
    portfolioSectorsRes := .exc, emailRes := .exc, websearchRes := .exc }

/-- Cache state of a freshly constructed `MCPAgent` with caching enabled. -/
def emptyCacheState : AgentCacheState :=
  { enableCache := true, cacheMap := [], tsMap := [] }

/-- Environment in which the email agent reports a sent message. -/
def envEmailOk : AgentEnv := { envDefault with emailRes := .ok (.str (chars "sent")) }

/-- Environment in which the stock agent returns a current-price record. -/
def envStockOk : AgentEnv :=
  { envDefault with stockRes := .ok (.dict
      [(chars "ticker", .str (chars "AAPL")), (chars "current_price", .int 123)]) }

/-- Environment in which the rag agent's async call times out while the stock
agent succeeds. -/
def envRagTimeoutStockOk : AgentEnv :=
  { envStockOk with ragHasAsync := true, ragAsyncRes := .timeout }

/-! ## JSON serialisation (`json.dumps` / `json.loads` as used by
`MCP/cache.py`)

`jsonDumps` models CPython's `json.dumps` with default arguments
(`ensure_ascii=True`, separators `", "` and `": "`) on the modelled value
fragment; `jsonLoads` models `json.loads` on the float-free fragment (an input
that only a float literal could satisfy is rejected rather than parsed, since
the model carries no floats). -/

/-- Lowercase hex digit, as CPython's json emits. -/
def hexDigitChar (d : ℕ) : Char :=
  if d < 10 then Char.ofNat (48 + d) else Char.ofNat (87 + d)

/-- Four lowercase hex digits of `n < 0x10000` (a `\uXXXX` payload). -/
def hex4 (n : ℕ) : List Char :=
  [hexDigitChar (n / 4096 % 16), hexDigitChar (n / 256 % 16),
   hexDigitChar (n / 16 % 16), hexDigitChar (n % 16)]

/-- JSON escape of one character under `ensure_ascii=True`: `"` and `\` and
the common control characters by short escapes, other controls and all
non-ASCII by `\uXXXX`, astral characters as a surrogate pair. -/
def jsonEscapeChar (c : Char) : List Char :=
  if c = '"' then ['\\', '"']
  else if c = '\\' then ['\\', '\\']
  else if c = '\n' then ['\\', 'n']
  else if c = '\r' then ['\\', 'r']
  else if c = '\t' then ['\\', 't']
  else if c = '\x08' then ['\\', 'b']
  else if c = '\x0c' then ['\\', 'f']
  else if c.toNat < 32 ∨ 127 ≤ c.toNat then
    if c.toNat < 65536 then '\\' :: 'u' :: hex4 c.toNat
    else
      ('\\' :: 'u' :: hex4 (55296 + (c.toNat - 65536) / 1024))
        ++ ('\\' :: 'u' :: hex4 (56320 + (c.toNat - 65536) % 1024))
  else [c]

/-- JSON string literal of `s`. -/
def jsonQuote (s : List Char) : List Char :=
  '"' :: (s.flatMap jsonEscapeChar ++ ['"'])

mutual

/-- CPython `json.dumps(v)` with default arguments. -/
def jsonDumps : PyVal → List Char
  | .none => chars "null"
  | .bool true => chars "true"
  | .bool false => chars "false"
  | .int i => intDecimal i
  | .str s => jsonQuote s
  | .list xs => '[' :: (jsonDumpsList xs ++ [']'])
  | .dict d => '\x7b' :: (jsonDumpsEntries d ++ ['\x7d'])

/-- Comma-joined serialisations of array elements. -/
def jsonDumpsList : List PyVal → List Char
  | [] => []
  | [x] => jsonDumps x
  | x :: y :: rest => jsonDumps x ++ chars ", " ++ jsonDumpsList (y :: rest)

/-- Comma-joined `"key": value` serialisations of object entries. -/
def jsonDumpsEntries : List (List Char × PyVal) → List Char
  | [] => []
  | [(k, v)] => jsonQuote k ++ chars ": " ++ jsonDumps v
  | (k, v) :: e :: rest =>
      jsonQuote k ++ chars ": " ++ jsonDumps v ++ chars ", "
        ++ jsonDumpsEntries (e :: rest)

end

/-- JSON whitespace. -/
def jsonWs (c : Char) : Bool := c = ' ' || c = '\t' || c = '\n' || c = '\r'

/-- Skip JSON whitespace. -/
def skipWs (l : List Char) : List Char := l.dropWhile jsonWs

/-- Hex digit value of a character. -/
def fromHexDigit (c : Char) : Option ℕ :=
  if 48 ≤ c.toNat ∧ c.toNat ≤ 57 then some (c.toNat - 48)
  else if 97 ≤ c.toNat ∧ c.toNat ≤ 102 then some (c.toNat - 87)
  else if 65 ≤ c.toNat ∧ c.toNat ≤ 70 then some (c.toNat - 55)
  else Option.none

/-- Parse exactly four hex digits. -/
def parseHex4 : List Char → Option (ℕ × List Char)
  | a :: b :: c :: d :: rest =>
      match fromHexDigit a, fromHexDigit b, fromHexDigit c, fromHexDigit d with
      | some x, some y, some z, some w =>
          some (x * 4096 + y * 256 + z * 16 + w, rest)
      | _, _, _, _ => Option.none
  | _ => Option.none

/-- Short escape decodings (`\" \\ \/ \n \t \r \b \f`). -/
def unescapeShort (e : Char) : Option Char :=
  if e = '"' then some '"'
  else if e = '\\' then some '\\'
  else if e = '/' then some '/'
  else if e = 'n' then some '\n'
  else if e = 't' then some '\t'
  else if e = 'r' then some '\r'
  else if e = 'b' then some '\x08'
  else if e = 'f' then some '\x0c'
  else Option.none

/-- Parse a JSON string body up to the closing quote (strict mode: raw control
characters rejected).  Valid surrogate pairs are combined as `json.loads`
does; a lone surrogate (unreachable from `jsonDumps` output, and not
representable in `Char`) is rejected. -/
def parseStrBody : ℕ → List Char → Option (List Char × List Char)
  | 0, _ => Option.none
  | _ + 1, [] => Option.none
  | fuel + 1, c :: rest =>
      if c = '"' then some ([], rest)
      else if c = '\\' then
        match rest with
        | [] => Option.none
        | e :: rest2 =>
            if e = 'u' then
              match parseHex4 rest2 with
              | some (n, rest3) =>
                  if 55296 ≤ n ∧ n ≤ 56319 then
                    match rest3 with
                    | '\\' :: 'u' :: rest4 =>
                        match parseHex4 rest4 with
                        | some (m, rest5) =>
                            if 56320 ≤ m ∧ m ≤ 57343 then
                              match parseStrBody fuel rest5 with
                              | some (s, r) =>
                                  some (Char.ofNat
                                    (65536 + (n - 55296) * 1024 + (m - 56320)) :: s, r)
                              | Option.none => Option.none
                            else Option.none
                        | Option.none => Option.none
                    | _ => Option.none
                  else if 56320 ≤ n ∧ n ≤ 57343 then Option.none
                  else
                    match parseStrBody fuel rest3 with
                    | some (s, r) => some (Char.ofNat n :: s, r)
                    | Option.none => Option.none
              | Option.none => Option.none
            else
              match unescapeShort e with
              | some d =>
                  match parseStrBody fuel rest2 with
                  | some (s, r) => some (d :: s, r)
                  | Option.none => Option.none
              | Option.none => Option.none
      else if c.toNat < 32 then Option.none
      else
        match parseStrBody fuel rest with
        | some (s, r) => some (c :: s, r)
        | Option.none => Option.none

/-- Digit run as a natural number (JSON forbids leading zeros). -/
def parseNat (l : List Char) : Option (ℕ × List Char) :=
  let ds := l.takeWhile (fun c => c.isDigit)
  if ds.isEmpty then Option.none
  else if ds.length > 1 ∧ ds.head? = some '0' then Option.none
  else some (ds.foldl (fun a c => a * 10 + (c.toNat - 48)) 0,
    l.dropWhile (fun c => c.isDigit))

/-- A number continuing with `.`/`e`/`E` would be a float literal — outside
the modelled fragment, hence rejected. -/
def floatFollow : List Char → Bool
  | c :: _ => c = '.' || c = 'e' || c = 'E'
  | [] => false

/-- Parse a JSON int. -/
def parseNumber (l : List Char) : Option (PyVal × List Char) :=
  match l with
  | '-' :: rest =>
      match parseNat rest with
      | some (n, r) =>
          if floatFollow r then Option.none else some (.int (-(n : ℤ)), r)
      | Option.none => Option.none
  | _ =>
      match parseNat l with
      | some (n, r) =>
          if floatFollow r then Option.none else some (.int (n : ℤ), r)
      | Option.none => Option.none

/-- Python dict construction from parsed pairs: successive `d[k] = v`
assignments (duplicate keys keep the first position, last value). -/
def dictFromPairs (pairs : List (List Char × PyVal)) :
    List (List Char × PyVal) :=
  pairs.foldl (fun d e => aset e.1 e.2 d) []

mutual

/-- Recursive-descent JSON value parser (fuel-driven; the top level passes
`input.length + 1`, which the round-trip lemmas show sufficient). -/
def parseValue : ℕ → List Char → Option (PyVal × List Char)
  | 0, _ => Option.none
  | fuel + 1, l =>
      match l with
      | [] => Option.none
      | c :: rest =>
          if c = 't' then
            if (chars "rue").isPrefixOf rest then some (.bool true, rest.drop 3)
            else Option.none
          else if c = 'f' then
            if (chars "alse").isPrefixOf rest then some (.bool false, rest.drop 4)
            else Option.none
          else if c = 'n' then
            if (chars "ull").isPrefixOf rest then some (.none, rest.drop 3)
            else Option.none
          else if c = '"' then
            match parseStrBody rest.length rest with
            | some (s, r) => some (.str s, r)
            | Option.none => Option.none
          else if c = '[' then
            match skipWs rest with
            | ']' :: r2 => some (.list [], r2)
            | r1 =>
                match parseArrayItems fuel r1 with
                | some (vs, r2) => some (.list vs, r2)
                | Option.none => Option.none
          else if c = '\x7b' then
            match skipWs rest with
            | '\x7d' :: r2 => some (.dict [], r2)
            | r1 =>
                match parseObjectItems fuel r1 with
                | some (es, r2) => some (.dict (dictFromPairs es), r2)
                | Option.none => Option.none
          else parseNumber (c :: rest)

/-- Parse `value (ws "," ws value)* ws "]"`. -/
def parseArrayItems : ℕ → List Char → Option (List PyVal × List Char)
  | 0, _ => Option.none
  | fuel + 1, l =>
      match parseValue fuel l with
      | some (v, r) =>
          match skipWs r with
          | ',' :: r3 =>
              match parseArrayItems fuel (skipWs r3) with
              | some (vs, r4) => some (v :: vs, r4)
              | Option.none => Option.none
          | ']' :: r3 => some ([v], r3)
          | _ => Option.none
      | Option.none => Option.none

/-- Parse `string ws ":" ws value (ws "," ws ...)* ws "}"`. -/
def parseObjectItems : ℕ → List Char → Option (List (List Char × PyVal) × List Char)
  | 0, _ => Option.none
  | fuel + 1, l =>
      match l with
      | '"' :: rest =>
          match parseStrBody rest.length rest with
          | some (k, r) =>
              match skipWs r with
              | ':' :: r2 =>
                  match parseValue fuel (skipWs r2) with
                  | some (v, r3) =>
                      match skipWs r3 with
                      | ',' :: r4 =>
                          match parseObjectItems fuel (skipWs r4) with
                          | some (es, r5) => some ((k, v) :: es, r5)
                          | Option.none => Option.none
                      | '\x7d' :: r4 => some ([(k, v)], r4)
                      | _ => Option.none
                  | Option.none => Option.none
              | _ => Option.none
          | Option.none => Option.none
      | _ => Option.none

end

/-- CPython `json.loads` on the modelled fragment: parse one value surrounded
by whitespace; trailing garbage is an error. -/
def jsonLoads (s : List Char) : Option PyVal :=
  match parseValue (s.length + 1) (skipWs s) with
  | some (v, r) => if (skipWs r).isEmpty then some v else Option.none
  | Option.none => Option.none

/-- Key uniqueness of a Python dict (inherent to `dict`: a dict value cannot
carry duplicate keys). -/
def nodupKeys : List (List Char × PyVal) → Bool
  | [] => true
  | e :: rest => !(rest.any (fun f => decide (f.1 = e.1))) && nodupKeys rest

mutual

/-- Well-formedness of a modelled Python value: every dict (recursively) has
pairwise distinct keys, as Python dicts do by construction. -/
def PyVal.wf : PyVal → Bool
  | .list xs => PyVal.wfList xs
  | .dict d => nodupKeys d && PyVal.wfEntries d
  | _ => true

/-- Well-formedness of the elements of a list. -/
def PyVal.wfList : List PyVal → Bool
  | [] => true
  | x :: t => PyVal.wf x && PyVal.wfList t

/-- Well-formedness of the values of dict entries. -/
def PyVal.wfEntries : List (List Char × PyVal) → Bool
  | [] => true
  | e :: t => PyVal.wf e.2 && PyVal.wfEntries t

end

/-! ## `CacheManager` (`MCP/cache.py`) and `handle_generic` (`MCP/handlers.py`) -/

/-- Mutable state of a `CacheManager` (`cache.py` lines 10-14).  `agent_configs`
is modelled by the only field `cache.py` reads from it, `cache_ttl` per agent
type; `_cache = None` (cache disabled) is folded into `enable_cache = false`,
whose guard behaves identically in `get_cached`/`set_cached`.  Values of
`_cache` are the stored strings. -/
structure CacheManagerState where
  enable_cache : Bool
  agent_configs : List (AgentType × ℕ)
  cache : List (CacheKey × List Char)
  cache_timestamps : List (CacheKey × ℕ)

/-- The `agent_configs` dict `MCPAgent.__init__` passes to its `CacheManager`,
projected to `cache_ttl`. -/
def cmConfigs : List (AgentType × ℕ) :=
  configOrder.map (fun t => (t, (getConfig t).cacheTtl))

/-- TTL resolution shared by `get_cached`/`set_cached` (`cache.py` lines 22-34
and 55-66): `"final_response"` gets a fixed TTL of 300; otherwise
`AgentType(agent_type)` must convert (else `ValueError` → no caching), the
config must be present (`not config`), and `cache_ttl == 0` disables. -/
def CacheManager.cacheTtlFor (configs : List (AgentType × ℕ))
    (agent_type : String) : Option ℕ :=
  if agent_type = "final_response" then some 300
  else
    match agentOfLabel agent_type with
    | Option.none => Option.none
    | some a =>
        match alookup a configs with
        | Option.none => Option.none
        | some ttl => if ttl = 0 then Option.none else some ttl

/-- Transcription of `CacheManager.get_cached` (`cache.py` lines 19-50).  The
guard `not self.enable_cache or not self._cache` treats the empty dict as
disabled; a fresh hit is `json.loads`-decoded with the raw string as fallback;
a present-but-stale key is popped from both dicts.  `_cache_timestamps[key]`
is only read under `key in self._cache`, and every write stores both entries
together, so the timestamp is modelled with default 0 for a key outside
`_cache_timestamps`. -/
def CacheManager.get_cached (st : CacheManagerState) (agent_type : String)
    (q : List Char) (now : ℕ) : Option PyVal × CacheManagerState :=
  if !st.enable_cache || st.cache.isEmpty then (Option.none, st)
  else
    match CacheManager.cacheTtlFor st.agent_configs agent_type with
    | Option.none => (Option.none, st)
    | some cache_ttl =>
        let key := CacheManager._get_cache_key agent_type q
        match alookup key st.cache with
        | some cached_value =>
            if now - ((alookup key st.cache_timestamps).getD 0) < cache_ttl
            then
              (some ((jsonLoads cached_value).getD (.str cached_value)), st)
            else
              (Option.none,
                { st with cache := aremove key st.cache,
                          cache_timestamps :=
                            aremove key st.cache_timestamps })
        | Option.none => (Option.none, st)

/-- The serialisation `set_cached` stores (`cache.py` lines 69-73):
`json.dumps(result)` for a dict or list, `str(result)` otherwise. -/
def CacheManager.serializeResult : PyVal → List Char
  | .dict d => jsonDumps (.dict d)
  | .list xs => jsonDumps (.list xs)
  | r => r.pyStr

/-- Transcription of `CacheManager.set_cached` (`cache.py` lines 52-74): the
same empty-dict guard drops every write to an empty `_cache`; dict/list
results are stored as `json.dumps(result)`, anything else as `str(result)`. -/
def CacheManager.set_cached (st : CacheManagerState) (agent_type : String)
    (q : List Char) (result : PyVal) (now : ℕ) : CacheManagerState :=
  if !st.enable_cache || st.cache.isEmpty then st
  else
    match CacheManager.cacheTtlFor st.agent_configs agent_type with
    | Option.none => st
    | some _ =>
        let key := CacheManager._get_cache_key agent_type q
        { st with cache := aset key (CacheManager.serializeResult result)
                    st.cache,
                  cache_timestamps := aset key now st.cache_timestamps }

/-- Outcome of the underlying agent call inside `handle_generic`: a returned
value or a raised exception with its message `str(e)`.  A timed-out
`_call_with_timeout` surfaces as `.ok PyVal.none` (it returns `None`). -/
inductive HandlerOutcome where
  | ok (v : PyVal)
  | exc (msg : List Char)

/-- The error result dict built by `handle_generic`'s `except` branch
(`handlers.py` lines 164-170). -/
def Handlers.errorResult (t : AgentType) (q msg : List Char) : PyVal :=
  .dict [
    (chars "type", .str (chars t.value)),
    (chars "content", .str (chars "Error occurred: " ++ msg
      ++ chars ". Please contact the technical team at semernahdi25@gmail.com")),
    (chars "sources", .list [.dict [(chars "source", .str (chars t.value)),
      (chars "score", .int 0)]]),
    (chars "query", .str q),
    (chars "raw_data", .none)]

/-- `content = res if isinstance(res, (dict, list)) else str(res)`
(`handlers.py` lines 117-120). -/
def Handlers.normContent : PyVal → PyVal
  | .dict d => .dict d
  | .list xs => .list xs
  | v => .str v.pyStr

/-- The stock-agent error-indicator filter (`handlers.py` lines 123-132):
any of the four indicators as a substring of `str(content).lower()`. -/
def Handlers.stockErrorHit (content : PyVal) : Bool :=
  let cs := lowerStr content.pyStr
  isSub (chars "not recognized") cs || isSub (chars "try queries such") cs
    || isSub (chars "error occurred") cs || isSub (chars "please contact") cs

/-- The normalized result dict of `handle_generic`'s non-RAG/non-WebSearch
branch (`handlers.py` lines 134-141). -/
def Handlers.otherResult (t : AgentType) (q : List Char) (content res : PyVal) :
    PyVal :=
  .dict [
    (chars "type", .str (chars t.value)),
    (chars "content", content),
    (chars "sources", .list [.dict [(chars "source", .str (chars t.value)),
      (chars "score", .int 0)]]),
    (chars "query", .str q),
    (chars "raw_data", res)]

/-- `PyVal.none` test (`res is None`). -/
def PyVal.isNone : PyVal → Bool
  | .none => true
  | _ => false

/-- Transcription of `handle_generic` (`handlers.py` lines 12-172) for the
stock/email/portfolio path (`agent_type` not RAG/WebSearch; those two differ
only in how `result` is normalised and share the same cache read/write path).
The installed agent is assumed present (the constructor installs all five);
the underlying call is abstracted by `outcome`; a `None` result (including a
timed-out async call) returns `None` without caching; the `except` branch
builds an error dict and caches it. -/
def Handlers.handle_generic (st : CacheManagerState) (t : AgentType)
    (q : List Char) (outcome : HandlerOutcome) (now : ℕ) :
    Option PyVal × CacheManagerState :=
  let g := CacheManager.get_cached st t.value q now
  if (g.1.map PyVal.truthy).getD false then (g.1, g.2)
  else
    let st1 := g.2
    match outcome with
    | .exc msg =>
        let result := Handlers.errorResult t q msg
        (some result, CacheManager.set_cached st1 t.value q result now)
    | .ok res =>
        if res.isNone then (Option.none, st1)
        else
          let content := Handlers.normContent res
          if t = .STOCK && Handlers.stockErrorHit content then
            (Option.none, st1)
          else
            let result := Handlers.otherResult t q content res
            (some result, CacheManager.set_cached st1 t.value q result now)

/-- Python `isinstance(result, (dict, list))`. -/
def PyVal.isStructured : PyVal → Bool
  | .dict _ => true
  | .list _ => true
  | _ => false

/-- A freshly constructed cache state (`enable_cache=True`, empty `_cache`),
as `MCPAgent.__init__` builds it. -/
def stFresh : CacheManagerState :=
  { enable_cache := true, agent_configs := cmConfigs,
    cache := [], cache_timestamps := [] }

/-- A cache state whose `_cache` dict is nonempty (one unrelated seed entry),
so that the `not self._cache` guard does not drop operations. -/
def stLive : CacheManagerState :=
  { enable_cache := true, agent_configs := cmConfigs,
    cache := [(("seed", []), chars "0")],
    cache_timestamps := [(("seed", []), 0)] }

/-! ## Helper lemmas about substring matching and whitespace -/

lemma isSub_subset {kw q : List Char} (h : isSub kw q = true) : ∀ c ∈ kw, c ∈ q := by
  induction q with
  | nil =>
      simp only [isSub, decide_eq_true_eq] at h
      subst h; intro c hc; cases hc
  | cons a t ih =>
      simp only [isSub, Bool.or_eq_true] at h
      rcases h with h | h
      · intro c hc
        exact (List.isPrefixOf_iff_prefix.mp h).subset hc
      · intro c hc
        exact List.mem_cons_of_mem a (ih h c hc)

lemma isSub_of_allws {kw q : List Char} (hq : ∀ c ∈ q, pyIsSpace c = true)
    (hkw : kw.any (fun c => !pyIsSpace c) = true) : isSub kw q = false := by
  rcases List.any_eq_true.mp hkw with ⟨c, hc, hnws⟩
  by_contra hcon
  rw [Bool.not_eq_false] at hcon
  have := hq c (isSub_subset hcon c hc)
  simp only [Bool.not_eq_true'] at hnws
  rw [this] at hnws
  cases hnws

lemma toLower_of_space {c : Char} (h : pyIsSpace c = true) : c.toLower = c := by
  simp only [pyIsSpace, Bool.or_eq_true, beq_iff_eq] at h
  rcases h with ((((h | h) | h) | h) | h) | h <;> subst h <;> decide

lemma lowerStr_of_allws {q : List Char} (hq : ∀ c ∈ q, pyIsSpace c = true) :
    lowerStr q = q := by
  unfold lowerStr
  induction q with
  | nil => rfl
  | cons a t ih =>
      simp only [List.map_cons]
      rw [toLower_of_space (hq a (List.mem_cons_self a t)),
        ih (fun c hc => hq c (List.mem_cons_of_mem a hc))]

lemma strong_kw_has_nonspace :
    ∀ a : AgentType, ∀ kw ∈ QueryIntent.strong a,
      kw.any (fun c => !pyIsSpace c) = true := by
  intro a; cases a <;> decide

lemma weak_kw_has_nonspace :
    ∀ a : AgentType, ∀ kw ∈ QueryIntent.weak a,
      kw.any (fun c => !pyIsSpace c) = true := by
  intro a; cases a <;> decide

lemma strongA_kw_has_nonspace :
    ∀ a : AgentType, ∀ kw ∈ QueryIntentA.strong a,
      kw.any (fun c => !pyIsSpace c) = true := by
  intro a; cases a <;> decide

lemma boost_words_have_nonspace :
    (∀ kw ∈ QueryIntent.stockWords, kw.any (fun c => !pyIsSpace c) = true)
    ∧ (∀ kw ∈ QueryIntent.portfolioWords, kw.any (fun c => !pyIsSpace c) = true)
    ∧ (∀ kw ∈ QueryIntent.emailWords, kw.any (fun c => !pyIsSpace c) = true)
    ∧ (∀ kw ∈ QueryIntent.newsWords, kw.any (fun c => !pyIsSpace c) = true) := by
  refine ⟨?_, ?_, ?_, ?_⟩ <;> decide

lemma countP_zero_of_allws {q : List Char} (table : List (List Char))
    (hq : ∀ c ∈ q, pyIsSpace c = true)
    (ht : ∀ kw ∈ table, kw.any (fun c => !pyIsSpace c) = true) :
    table.countP (fun kw => isSub kw q) = 0 := by
  rw [List.countP_eq_zero]
  intro kw hkw
  simp only [isSub_of_allws hq (ht kw hkw)]
  exact Bool.false_ne_true

lemma any_false_of_allws {q : List Char} (table : List (List Char))
    (hq : ∀ c ∈ q, pyIsSpace c = true)
    (ht : ∀ kw ∈ table, kw.any (fun c => !pyIsSpace c) = true) :
    table.any (fun kw => isSub kw q) = false := by
  rw [List.any_eq_false]
  intro kw hkw
  simp only [isSub_of_allws hq (ht kw hkw)]
  exact Bool.false_ne_true

/-- C7: for every query and every provider, the intent score returned by the
IntentScorer equals clamp(0.7·strong + 0.2·max(strong−1,0) + 0.3·weak, 0, 1)
(in tenths), with the deterministic entity-pattern boosts only raising the
score of the boosted provider to a fixed floor and never lowering a higher
existing score; both scorer revisions satisfy the formula (the `mcp_agent.py`
revision has no boosts, i.e. floor 0), and an empty or whitespace-only query
scores every provider 0. -/
theorem c7_intent_score_formula :
    (∀ q a, QueryIntent.analyze q a =
        max (specClampScore (QueryIntent.strongCount (lowerStr q) a)
              (QueryIntent.weakCount (lowerStr q) a)) (specBoostFloor q a))
    ∧ (∀ q a, QueryIntent.analyze q a ≥
        specClampScore (QueryIntent.strongCount (lowerStr q) a)
          (QueryIntent.weakCount (lowerStr q) a))
    ∧ (∀ q a, QueryIntentA.analyze q a =
        specClampScore (QueryIntentA.strongCount (lowerStr q) a)
          (QueryIntentA.weakCount (lowerStr q) a))
    ∧ (∀ q, (∀ c ∈ q, pyIsSpace c = true) →
        ∀ a, QueryIntent.analyze q a = 0 ∧ QueryIntentA.analyze q a = 0) := by
  have hmain : ∀ q a, QueryIntent.analyze q a =
      max (specClampScore (QueryIntent.strongCount (lowerStr q) a)
            (QueryIntent.weakCount (lowerStr q) a)) (specBoostFloor q a) := by
    intro q a
    cases a <;>
      simp only [QueryIntent.analyze, QueryIntent.afterNewsBoost,
        QueryIntent.afterEmailBoost, QueryIntent.afterPortfolioBoost,
        QueryIntent.afterStockBoost, QueryIntent.base, specClampScore,
        specBoostFloor, reduceCtorEq, false_and, if_false, true_and] <;>
      split_ifs <;>
      omega
  have hA : ∀ q a, QueryIntentA.analyze q a =
      specClampScore (QueryIntentA.strongCount (lowerStr q) a)
        (QueryIntentA.weakCount (lowerStr q) a) := by
    intro q a
    simp only [QueryIntentA.analyze, specClampScore]
    have hcases : QueryIntentA.strongCount (lowerStr q) a = 0
        ∨ QueryIntentA.strongCount (lowerStr q) a = 1
        ∨ QueryIntentA.strongCount (lowerStr q) a ≥ 2 := by omega
    omega
  refine ⟨hmain, ?_, hA, ?_⟩
  · intro q a
    rw [hmain q a]
    exact le_max_left _ _
  · intro q hws a
    have hl : lowerStr q = q := lowerStr_of_allws hws
    constructor
    · rw [hmain q a]
      have hstrong : QueryIntent.strongCount (lowerStr q) a = 0 := by
        unfold QueryIntent.strongCount
        rw [hl]
        exact countP_zero_of_allws _ hws (strong_kw_has_nonspace a)
      have hweak : QueryIntent.weakCount (lowerStr q) a = 0 := by
        unfold QueryIntent.weakCount
        rw [hl]
        exact countP_zero_of_allws _ hws (weak_kw_has_nonspace a)
      have hfloor : specBoostFloor q a = 0 := by
        unfold specBoostFloor
        cases a <;>
          simp only [hl, any_false_of_allws _ hws boost_words_have_nonspace.1,
            any_false_of_allws _ hws boost_words_have_nonspace.2.1,
            any_false_of_allws _ hws boost_words_have_nonspace.2.2.1,
            any_false_of_allws _ hws boost_words_have_nonspace.2.2.2,
            Bool.false_eq_true, and_false, false_and, if_false]
      rw [hstrong, hweak, hfloor]
      simp [specClampScore]
    · rw [hA q a]
      have hstrong : QueryIntentA.strongCount (lowerStr q) a = 0 := by
        unfold QueryIntentA.strongCount
        rw [hl]
        exact countP_zero_of_allws _ hws (strongA_kw_has_nonspace a)
      have hweak : QueryIntentA.weakCount (lowerStr q) a = 0 := by
        unfold QueryIntentA.weakCount
        rw [hl]
        refine countP_zero_of_allws _ hws ?_
        have := weak_kw_has_nonspace a
        simpa [QueryIntent.weak] using this
      rw [hstrong, hweak]
      simp [specClampScore]

/-- Witness for C7: the whitespace-only hypothesis discharged at `" "` and the
empty query `""`. -/
theorem c7_intent_score_formula_witness :
    QueryIntent.analyze (chars " ") .STOCK = 0
    ∧ QueryIntentA.analyze (chars "") .EMAIL = 0 :=
  ⟨(c7_intent_score_formula.2.2.2 (chars " ") (by decide) .STOCK).1,
   (c7_intent_score_formula.2.2.2 (chars "") (by decide) .EMAIL).2⟩

lemma mem_insertCand {x y : Candidate} {l : List Candidate} :
    y ∈ insertCand x l → y = x ∨ y ∈ l := by
  induction l with
  | nil =>
      intro h
      simp only [insertCand, List.mem_singleton] at h
      exact Or.inl h
  | cons a t ih =>
      simp only [insertCand]
      split_ifs
      · intro h
        rcases List.mem_cons.mp h with h | h
        · exact Or.inl h
        · exact Or.inr h
      · intro h
        rcases List.mem_cons.mp h with h | h
        · exact Or.inr (h ▸ List.mem_cons_self a t)
        · rcases ih h with h | h
          · exact Or.inl h
          · exact Or.inr (List.mem_cons_of_mem a h)

lemma mem_sortCands {y : Candidate} {l : List Candidate} :
    y ∈ sortCands l → y ∈ l := by
  induction l with
  | nil =>
      intro h
      simp only [sortCands] at h
      exact h
  | cons a t ih =>
      intro h
      rcases mem_insertCand h with h | h
      · exact h ▸ List.mem_cons_self a t
      · exact List.mem_cons_of_mem a (ih h)

lemma mem_configOrder : ∀ a : AgentType, a ∈ configOrder := by decide

/-- Structure of `_route_query` members: every returned candidate either
cleared the threshold on its own confidence, or is the RAG fallback emitted
because no agent cleared it. -/
lemma route_query_mem {θ : ℕ} {q : List Char} {x : Candidate}
    (h : x ∈ MCPAgent._route_query θ q) :
    (x = (x.1, q, routeConfidence q x.1) ∧ θ ≤ routeConfidence q x.1)
    ∨ (x = (.RAG, q, 5) ∧ ∀ b, routeConfidence q b < θ) := by
  unfold MCPAgent._route_query at h
  have h' := mem_sortCands h
  by_cases hempty :
      (configOrder.filterMap fun a =>
        if θ ≤ routeConfidence q a then some ((a, q, routeConfidence q a) : Candidate)
        else none) = []
  · right
    rw [hempty] at h'
    simp only [eq_self_iff_true, if_true, List.mem_singleton] at h'
    refine ⟨h', ?_⟩
    intro b
    have hb := (List.filterMap_eq_nil_iff.mp hempty) b (mem_configOrder b)
    by_contra hc
    rw [if_pos (by omega)] at hb
    cases hb
  · left
    rw [if_neg hempty] at h'
    rcases List.mem_filterMap.mp h' with ⟨a, _, ha⟩
    by_cases hth : θ ≤ routeConfidence q a
    · rw [if_pos hth] at ha
      cases ha
      exact ⟨rfl, hth⟩
    · rw [if_neg hth] at ha
      cases ha

/-- C1: the claim states that when no provider clears the confidence threshold
(in particular for the empty query) `_route_query` returns an empty candidate
list and nothing is dispatched.  Counterexample: for the empty query every
confidence is 0, yet `_route_query` returns the RAG fallback candidate
`(RAG, "", 0.5)` — a nonempty list. -/
theorem c1_route_empty_counterexample :
    (∀ a, routeConfidence (chars "") a = 0)
    ∧ MCPAgent._route_query 4 (chars "") = [(.RAG, chars "", 5)]
    ∧ MCPAgent._route_query 4 (chars "") ≠ [] := by
  refine ⟨by decide, by decide, by decide⟩

/-- C1 (amended): whenever no provider's boosted confidence reaches the
threshold (0.4, i.e. 4 tenths), `_route_query` returns exactly the single RAG
fallback candidate with confidence 0.5 — the Router never returns an empty
list, and the RAG provider is subsequently dispatched. -/
theorem c1_route_fallback (q : List Char) (h : ∀ a, routeConfidence q a < 4) :
    MCPAgent._route_query 4 q = [(.RAG, q, 5)] := by
  have hnone : ∀ a ∈ configOrder,
      (if 4 ≤ routeConfidence q a then some ((a, q, routeConfidence q a) : Candidate)
       else none) = none := by
    intro a _
    rw [if_neg (by have := h a; omega)]
  unfold MCPAgent._route_query
  rw [List.filterMap_eq_nil_iff.mpr hnone]
  simp [sortCands, insertCand]

/-- Witness for C1's amended theorem at the concrete query `"hello"`. -/
theorem c1_route_fallback_witness :
    MCPAgent._route_query 4 (chars "hello") = [(.RAG, chars "hello", 5)] :=
  c1_route_fallback (chars "hello") (by decide)

/-- C6: the claim states that selecting the email provider also schedules its
portfolio dependency.  Counterexample: for `"Send me my daily snapshot"` the
Router selects the email provider alone — the portfolio dependency's own
confidence is 0 and `_route_query` never augments the candidate list with
dependencies, so portfolio is neither selected nor dispatched. -/
theorem c6_dependency_not_scheduled_counterexample :
    MCPAgent._route_query 4 (chars "Send me my daily snapshot")
      = [(.EMAIL, chars "Send me my daily snapshot", 10)]
    ∧ routeConfidence (chars "Send me my daily snapshot") .Portfolio = 0
    ∧ .Portfolio ∉ (MCPAgent._route_query 4
        (chars "Send me my daily snapshot")).map (fun c => c.1) := by
  refine ⟨by decide, by decide, by decide⟩

/-- C6 (amended): the Router never adds a dependency that did not clear the
threshold itself — every candidate either cleared the threshold on its own
confidence or is the RAG fallback; in particular the portfolio provider is
scheduled only on its own merit when email is selected. -/
theorem c6_route_no_dependency_augmentation (q : List Char) (x : Candidate)
    (h : x ∈ MCPAgent._route_query 4 q) :
    4 ≤ routeConfidence q x.1 ∨ (x.1 = .RAG ∧ ∀ b, routeConfidence q b < 4) := by
  rcases route_query_mem h with ⟨_, hth⟩ | ⟨hx, hall⟩
  · exact Or.inl hth
  · exact Or.inr ⟨by rw [hx], hall⟩

/-- Witness for C6's amended theorem at the snapshot query and its sole
returned candidate. -/
theorem c6_route_no_dependency_augmentation_witness :
    4 ≤ routeConfidence (chars "Send me my daily snapshot") .EMAIL
    ∨ ((.EMAIL : AgentType) = .RAG
        ∧ ∀ b, routeConfidence (chars "Send me my daily snapshot") b < 4) :=
  c6_route_no_dependency_augmentation (chars "Send me my daily snapshot")
    (.EMAIL, chars "Send me my daily snapshot", 10) (by decide)

/-- C8: the claim states that the acceptance threshold is lowered by a fixed
delta when more than one provider has a nonzero score.  Counterexample: the
query `"total news"` gives nonzero scores to exactly two providers (portfolio
0.3 via the weak keyword `"total"`, websearch 0.7 via `"news"`), yet the
sub-threshold portfolio provider is rejected exactly as in the single-intent
case — only websearch is routed, so multi-intent queries are not judged more
permissively. -/
theorem c8_no_multi_intent_lowering_counterexample :
    (configOrder.filter (fun a => 0 < QueryIntentA.analyze (chars "total news") a)).length = 2
    ∧ routeConfidence (chars "total news") .Portfolio = 3
    ∧ .Portfolio ∉ (MCPAgent._route_query 4 (chars "total news")).map (fun c => c.1)
    ∧ (MCPAgent._route_query 4 (chars "total news")).map (fun c => c.1) = [.WEBSEARCH] := by
  refine ⟨by decide, by decide, by decide, by decide⟩

/-- C8 (amended): `_route_query` compares every provider against the same
fixed threshold (default 0.4) regardless of how many providers have nonzero
intent scores; consequently every returned candidate — the fallback included —
carries confidence ≥ 0.4. -/
theorem c8_threshold_uniform (q : List Char) (x : Candidate)
    (h : x ∈ MCPAgent._route_query 4 q) : 4 ≤ x.2.2 := by
  rcases route_query_mem h with ⟨hx, hth⟩ | ⟨hx, _⟩
  · rw [hx]; exact hth
  · rw [hx]
    show (4:ℕ) ≤ 5
    omega

/-- Witness for C8's amended theorem at `"total news"` and its returned
websearch candidate. -/
theorem c8_threshold_uniform_witness :
    4 ≤ ((.WEBSEARCH, chars "total news", 7) : Candidate).2.2 :=
  c8_threshold_uniform (chars "total news") (.WEBSEARCH, chars "total news", 7)
    (by decide)

lemma char_eq_of_toNat {c d : Char} (h : c.toNat = d.toNat) : c = d := by
  have hc := Char.ofNat_toNat c
  rw [h, Char.ofNat_toNat d] at hc
  exact hc.symm

lemma pyIsSpace_iff_toNat (c : Char) :
    pyIsSpace c = true ↔ (c.toNat = 32 ∨ c.toNat = 9 ∨ c.toNat = 10
      ∨ c.toNat = 13 ∨ c.toNat = 11 ∨ c.toNat = 12) := by
  unfold pyIsSpace
  simp only [Bool.or_eq_true, beq_iff_eq]
  constructor
  · rintro (((((h | h) | h) | h) | h) | h) <;> subst h <;> simp
  · rintro (h | h | h | h | h | h) <;>
      [skip; skip; skip; skip; skip; skip] <;>
      first
      | exact Or.inl (Or.inl (Or.inl (Or.inl (Or.inl (char_eq_of_toNat h)))))
      | exact Or.inl (Or.inl (Or.inl (Or.inl (Or.inr (char_eq_of_toNat h)))))
      | exact Or.inl (Or.inl (Or.inl (Or.inr (char_eq_of_toNat h))))
      | exact Or.inl (Or.inl (Or.inr (char_eq_of_toNat h)))
      | exact Or.inl (Or.inr (char_eq_of_toNat h))
      | exact Or.inr (char_eq_of_toNat h)

lemma toLower_toNat (c : Char) :
    (Char.toLower c).toNat =
      if c.toNat ≥ 65 ∧ c.toNat ≤ 90 then c.toNat + 32 else c.toNat := by
  have h1 : Char.toLower c
      = if c.toNat ≥ 65 ∧ c.toNat ≤ 90 then Char.ofNat (c.toNat + 32) else c := rfl
  rw [h1]
  split_ifs with h
  · have hv : (c.toNat + 32).isValidChar := by
      left
      have h90 := h.2
      omega
    unfold Char.ofNat
    rw [dif_pos hv]
    rfl
  · rfl

lemma pyIsSpace_toLower (c : Char) : pyIsSpace (Char.toLower c) = pyIsSpace c := by
  by_cases h : pyIsSpace c = true
  · rw [h]
    rw [pyIsSpace_iff_toNat] at h ⊢
    rw [toLower_toNat]
    split_ifs with h2
    · omega
    · exact h
  · simp only [Bool.not_eq_true] at h
    rw [h]
    by_contra hcon
    simp only [Bool.not_eq_false] at hcon
    rw [pyIsSpace_iff_toNat, toLower_toNat] at hcon
    have h' : ¬ (c.toNat = 32 ∨ c.toNat = 9 ∨ c.toNat = 10 ∨ c.toNat = 13
        ∨ c.toNat = 11 ∨ c.toNat = 12) := by
      intro hx
      rw [← pyIsSpace_iff_toNat] at hx
      rw [h] at hx
      cases hx
    split_ifs at hcon <;> omega

lemma dropWhile_append_of_allP {p : Char → Bool} {a b : List Char}
    (ha : ∀ c ∈ a, p c = true) :
    (a ++ b).dropWhile p = b.dropWhile p := by
  induction a with
  | nil => rfl
  | cons c t ih =>
      simp only [List.cons_append, List.dropWhile_cons,
        ha c (List.mem_cons_self c t), if_true]
      exact ih (fun d hd => ha d (List.mem_cons_of_mem c hd))

lemma dropWhile_append_of_ne_nil {p : Char → Bool} {a b : List Char}
    (ha : a.dropWhile p ≠ []) :
    (a ++ b).dropWhile p = a.dropWhile p ++ b := by
  induction a with
  | nil => cases ha rfl
  | cons c t ih =>
      simp only [List.cons_append, List.dropWhile_cons] at *
      split_ifs with h
      · rw [if_pos h] at ha
        exact ih ha
      · rfl

lemma strip_ws_left {pre x : List Char} (hpre : ∀ c ∈ pre, pyIsSpace c = true) :
    stripStr (pre ++ x) = stripStr x := by
  unfold stripStr
  rw [dropWhile_append_of_allP hpre]

lemma strip_ws_right {x suf : List Char} (hsuf : ∀ c ∈ suf, pyIsSpace c = true) :
    stripStr (x ++ suf) = stripStr x := by
  unfold stripStr
  by_cases hx : x.dropWhile pyIsSpace = []
  · rw [hx, List.reverse_nil, List.dropWhile_nil, List.reverse_nil]
    have : (x ++ suf).dropWhile pyIsSpace = [] := by
      have hxall : ∀ c ∈ x, pyIsSpace c = true := by
        intro c hc
        by_contra hcon
        simp only [Bool.not_eq_true] at hcon
        have := List.dropWhile_eq_nil_iff.mp hx c hc
        rw [this] at hcon
        cases hcon
      rw [dropWhile_append_of_allP hxall]
      rw [List.dropWhile_eq_nil_iff]
      exact fun c hc => hsuf c hc
    rw [this, List.reverse_nil, List.dropWhile_nil, List.reverse_nil]
  · rw [dropWhile_append_of_ne_nil hx, List.reverse_append,
      dropWhile_append_of_allP (by
        intro c hc
        exact hsuf c (List.mem_reverse.mp hc))]

lemma lowerStr_allws {l : List Char} (h : ∀ c ∈ l, pyIsSpace c = true) :
    ∀ c ∈ lowerStr l, pyIsSpace c = true := by
  intro c hc
  rcases List.mem_map.mp hc with ⟨d, hd, rfl⟩
  rw [pyIsSpace_toLower]
  exact h d hd

/-- C9: the claim states cache keys are identical for any two queries equal up
to letter case and whitespace.  Counterexample: `"a b"` and `"ab"` are equal up
to whitespace, but `lower().strip()` removes only leading/trailing whitespace,
so the two hash arguments — hence the derived keys — differ. -/
theorem c9_cache_key_counterexample :
    eqUpToCaseWS (chars "a b") (chars "ab")
    ∧ CacheManager._get_cache_key "stock" (chars "a b")
      ≠ CacheManager._get_cache_key "stock" (chars "ab") := by
  refine ⟨?_, by decide⟩
  unfold eqUpToCaseWS
  decide

/-- C9 (amended): cache-key derivation is deterministic and insensitive to
letter case and to leading/trailing whitespace: for every provider label, every
query, every case variant of it and any all-whitespace padding, the derived key
is identical (internal whitespace differences, however, produce different
keys). -/
theorem c9_cache_key_case_trim_insensitive (a : String)
    (q q' pre suf : List Char) (hcase : lowerStr q' = lowerStr q)
    (hpre : ∀ c ∈ pre, pyIsSpace c = true)
    (hsuf : ∀ c ∈ suf, pyIsSpace c = true) :
    CacheManager._get_cache_key a (pre ++ q' ++ suf)
      = CacheManager._get_cache_key a q := by
  unfold CacheManager._get_cache_key normQueryKey
  have hmap : lowerStr (pre ++ q' ++ suf)
      = lowerStr pre ++ (lowerStr q' ++ lowerStr suf) := by
    unfold lowerStr
    rw [List.map_append, List.map_append, List.append_assoc]
  rw [hmap, strip_ws_left (lowerStr_allws hpre), hcase,
    strip_ws_right (lowerStr_allws hsuf)]

/-- Witness for C9's amended theorem: `"  AAPL Price\t"` and `"aapl price"`
derive the same key. -/
theorem c9_cache_key_case_trim_insensitive_witness :
    CacheManager._get_cache_key "stock" (chars "  " ++ chars "AAPL Price" ++ chars "\t")
      = CacheManager._get_cache_key "stock" (chars "aapl price") :=
  c9_cache_key_case_trim_insensitive "stock" (chars "aapl price")
    (chars "AAPL Price") (chars "  ") (chars "\t") (by decide) (by decide) (by decide)

lemma get_cached_empty {st : AgentCacheState} (h : st.cacheMap = [])
    (label : String) (q : List Char) (now : ℕ) :
    MCPAgent._get_cached st label q now = (Option.none, st) := by
  simp [MCPAgent._get_cached, h]

lemma set_cached_empty {st : AgentCacheState} (h : st.cacheMap = [])
    (label : String) (q r : List Char) (now : ℕ) :
    MCPAgent._set_cached st label q r now = st := by
  simp [MCPAgent._set_cached, h]

lemma withProviderCache_empty {st : AgentCacheState} (h : st.cacheMap = [])
    (label : String) (body : AgentCacheState → ℕ → List Char → AgentEnv → HandlerOut)
    (now : ℕ) (q : List Char) (env : AgentEnv) :
    withProviderCache label body st now q env = body st now q env := by
  simp [withProviderCache, get_cached_empty h]

lemma runHandler_state_empty (a : AgentType) {st : AgentCacheState}
    (h : st.cacheMap = []) (now : ℕ) (q : List Char) (env : AgentEnv) :
    (runHandler a st now q env).2.1 = st := by
  cases a <;>
    simp only [runHandler, MCPAgent._handle_stock, MCPAgent._handle_rag,
      MCPAgent._handle_portfolio, MCPAgent._handle_email,
      MCPAgent._handle_websearch, withProviderCache_empty h,
      MCPAgent.stockBody, MCPAgent.ragBody, MCPAgent.portfolioBody,
      MCPAgent.websearchBody] <;>
    (repeat' split) <;>
    simp [set_cached_empty h]

lemma runHandler_log_empty (a : AgentType) {st : AgentCacheState}
    (h : st.cacheMap = []) (now : ℕ) (q : List Char) (env : AgentEnv) :
    (runHandler a st now q env).2.2 = [a] := by
  cases a <;>
    simp only [runHandler, MCPAgent._handle_stock, MCPAgent._handle_rag,
      MCPAgent._handle_portfolio, MCPAgent._handle_email,
      MCPAgent._handle_websearch, withProviderCache_empty h,
      MCPAgent.stockBody, MCPAgent.ragBody, MCPAgent.portfolioBody,
      MCPAgent.websearchBody] <;>
    (repeat' split) <;>
    simp

lemma runWave_empty {st : AgentCacheState} (h : st.cacheMap = [])
    (cands : List Candidate) (now : ℕ) (env : AgentEnv) :
    runWave cands st now env
      = (cands.map (fun c => (runHandler c.1 st now c.2.1 env).1), st,
         cands.map (fun c => c.1)) := by
  induction cands with
  | nil => rfl
  | cons c rest ih =>
      simp only [runWave, List.map_cons]
      rw [runHandler_state_empty c.1 h, ih, runHandler_log_empty c.1 h]
      simp

lemma execute_agents_empty {st : AgentCacheState} (h : st.cacheMap = [])
    (cands : List Candidate) (now : ℕ) (env : AgentEnv) :
    MCPAgent._execute_agents cands st now env
      = ((waveOrder cands).map (fun c => (runHandler c.1 st now c.2.1 env).1), st,
         (waveOrder cands).map (fun c => c.1)) := by
  simp only [MCPAgent._execute_agents, runWave_empty h]
  simp [waveOrder, wave1, wave2]

lemma run_empty {st : AgentCacheState} (h : st.cacheMap = [])
    (θ : ℕ) (q : List Char) (now : ℕ) (env : AgentEnv) :
    MCPAgent.run θ q st now env
      = { response := MCPAgent._merge_responses
            ((waveOrder (MCPAgent._route_query θ q)).map
              (fun c => (runHandler c.1 st now c.2.1 env).1))
          selectedAgents := (MCPAgent._route_query θ q).map (fun c => c.1.value)
          state := st
          callLog := (waveOrder (MCPAgent._route_query θ q)).map (fun c => c.1) } := by
  simp only [MCPAgent.run, execute_agents_empty h]

lemma run_callLog_empty {st : AgentCacheState} (h : st.cacheMap = [])
    (θ : ℕ) (q : List Char) (now : ℕ) (env : AgentEnv) :
    (MCPAgent.run θ q st now env).callLog
      = (waveOrder (MCPAgent._route_query θ q)).map (fun c => c.1) := by
  rw [run_empty h]

lemma dependency_shape :
    ∀ x y : AgentType, y ∈ (getConfig x).dependencies
      → x = .EMAIL ∧ y = .Portfolio := by
  decide

/-- C5: a dependent provider never shares a dispatch wave with its dependency
— a candidate with a dependency is excluded from the independent wave and its
dependency from the dependent wave — and, in the execution order of
`_execute_agents` (independent wave gathered to completion, then the dependent
wave), every underlying call of the dependency precedes every call of the
dependent provider in the request's call log. -/
theorem c5_dependency_wave_ordering :
    (∀ (cands : List Candidate) (a b : Candidate),
        b.1 ∈ (getConfig a.1).dependencies →
        a ∉ wave1 cands ∧ b ∉ wave2 cands
        ∧ (a ∈ cands → a ∈ wave2 cands) ∧ (b ∈ cands → b ∈ wave1 cands))
    ∧ (∀ (θ : ℕ) (q : List Char) (st : AgentCacheState) (now : ℕ)
        (env : AgentEnv) (i j : ℕ) (x y : AgentType), st.cacheMap = [] →
        y ∈ (getConfig x).dependencies →
        (MCPAgent.run θ q st now env).callLog.get? i = some x →
        (MCPAgent.run θ q st now env).callLog.get? j = some y →
        j < i) := by
  constructor
  · intro cands a b hdep
    rcases dependency_shape a.1 b.1 hdep with ⟨ha, hb⟩
    refine ⟨?_, ?_, ?_, ?_⟩
    · intro hmem
      have hpred := (List.mem_filter.mp hmem).2
      rw [ha] at hpred
      exact absurd hpred (by decide)
    · intro hmem
      have hpred := (List.mem_filter.mp hmem).2
      rw [hb] at hpred
      exact absurd hpred (by decide)
    · intro hmem
      exact List.mem_filter.mpr ⟨hmem, by rw [ha]; decide⟩
    · intro hmem
      exact List.mem_filter.mpr ⟨hmem, by rw [hb]; decide⟩
  · intro θ q st now env i j x y hst hdep hi hj
    rcases dependency_shape x y hdep with ⟨hx, hy⟩
    subst hx; subst hy
    rw [run_callLog_empty hst] at hi hj
    have hsplit : (waveOrder (MCPAgent._route_query θ q)).map
          (fun c : Candidate => c.1)
        = (wave1 (MCPAgent._route_query θ q)).map (fun c => c.1)
          ++ (wave2 (MCPAgent._route_query θ q)).map (fun c => c.1) := by
      simp [waveOrder]
    rw [hsplit] at hi hj
    have hEM : (.EMAIL : AgentType)
        ∉ (wave1 (MCPAgent._route_query θ q)).map (fun c => c.1) := by
      intro hmem
      rcases List.mem_map.mp hmem with ⟨c, hc, hc1⟩
      have hpred := (List.mem_filter.mp hc).2
      rw [hc1] at hpred
      exact absurd hpred (by decide)
    have hPO : (.Portfolio : AgentType)
        ∉ (wave2 (MCPAgent._route_query θ q)).map (fun c => c.1) := by
      intro hmem
      rcases List.mem_map.mp hmem with ⟨c, hc, hc1⟩
      have hpred := (List.mem_filter.mp hc).2
      rw [hc1] at hpred
      exact absurd hpred (by decide)
    have hi' : ((wave1 (MCPAgent._route_query θ q)).map
        (fun c : Candidate => c.1)).length ≤ i := by
      by_contra hlt
      push_neg at hlt
      rw [List.get?_append hlt] at hi
      exact hEM (List.get?_mem hi)
    have hj' : j < ((wave1 (MCPAgent._route_query θ q)).map
        (fun c : Candidate => c.1)).length := by
      by_contra hge
      push_neg at hge
      rw [List.get?_append_right hge] at hj
      exact hPO (List.get?_mem hj)
    omega

/-- Witness for C5 at the query `"email my portfolio"`, which selects stock,
portfolio (wave 1) and email (wave 2); the call log is
`[STOCK, Portfolio, EMAIL]`, so portfolio's call (index 1) precedes email's
(index 2). -/
theorem c5_dependency_wave_ordering_witness :
    (((.EMAIL, chars "email my portfolio", 10) : Candidate)
        ∉ wave1 (MCPAgent._route_query 4 (chars "email my portfolio")))
    ∧ (1 : ℕ) < 2 :=
  ⟨(c5_dependency_wave_ordering.1
      (MCPAgent._route_query 4 (chars "email my portfolio"))
      (.EMAIL, chars "email my portfolio", 10)
      (.Portfolio, chars "email my portfolio", 7) (by decide)).1,
   c5_dependency_wave_ordering.2 4 (chars "email my portfolio") emptyCacheState
     0 envDefault 2 1 .EMAIL .Portfolio rfl (by decide) (by decide) (by decide)⟩

lemma isSub_self_append (m suf : List Char) : isSub m (m ++ suf) = true := by
  have hp : m.isPrefixOf (m ++ suf) = true :=
    List.isPrefixOf_iff_prefix.mpr ⟨suf, rfl⟩
  cases hms : m ++ suf with
  | nil =>
      rcases List.append_eq_nil.mp hms with ⟨rfl, rfl⟩
      decide
  | cons c t =>
      rw [hms] at hp
      unfold isSub
      rw [hp]
      simp

lemma isSub_append_left (m l pre : List Char) (h : isSub m l = true) :
    isSub m (pre ++ l) = true := by
  induction pre with
  | nil => exact h
  | cons c t ih =>
      show isSub m (c :: (t ++ l)) = true
      unfold isSub
      rw [ih]
      simp

lemma isSub_of_parts (m pre suf l : List Char) (h : l = pre ++ m ++ suf) :
    isSub m l = true := by
  subst h
  rw [List.append_assoc]
  exact isSub_append_left m (m ++ suf) pre (isSub_self_append m suf)

lemma dedup_covers (l : List (List Char)) (seen : List (List Char))
    (r : List Char) (hr : r ∈ l) (hseen : r.take 50 ∉ seen) :
    ∃ u ∈ dedupBy50 seen l, u.take 50 = r.take 50 := by
  induction l generalizing seen with
  | nil => cases hr
  | cons x rest ih =>
      rcases List.mem_cons.mp hr with rfl | hr'
      · simp only [dedupBy50]
        rw [if_neg hseen]
        exact ⟨r, List.mem_cons_self _ _, rfl⟩
      · by_cases hk : x.take 50 ∈ seen
        · simp only [dedupBy50]
          rw [if_pos hk]
          exact ih _ hr' hseen
        · simp only [dedupBy50]
          rw [if_neg hk]
          by_cases heq : r.take 50 = x.take 50
          · exact ⟨x, List.mem_cons_self _ _, heq.symm⟩
          · have hseen' : r.take 50 ∉ (x.take 50 :: seen) := by
              intro hmem
              rcases List.mem_cons.mp hmem with h | h
              · exact heq h
              · exact hseen h
            rcases ih _ hr' hseen' with ⟨u, hu, hueq⟩
            exact ⟨u, List.mem_cons_of_mem _ hu, hueq⟩

lemma joinSep_mem_parts (sep : List Char) (xs : List (List Char))
    (u : List Char) (hu : u ∈ xs) :
    ∃ pre suf, joinSep sep xs = pre ++ u ++ suf := by
  induction xs with
  | nil => cases hu
  | cons x rest ih =>
      rcases List.mem_cons.mp hu with rfl | hu'
      · cases rest with
        | nil => exact ⟨[], [], by simp [joinSep]⟩
        | cons y t => exact ⟨[], sep ++ joinSep sep (y :: t), by simp [joinSep]⟩
      · cases rest with
        | nil => cases hu'
        | cons y t =>
            rcases ih hu' with ⟨p, sfx, hps⟩
            exact ⟨x ++ sep ++ p, sfx, by simp [joinSep, hps]⟩

lemma merge_includes (responses : List (Option (List Char))) (s : List Char)
    (hs : some s ∈ responses) (hne : s ≠ []) :
    isSub (s.take 50) (MCPAgent._merge_responses responses) = true := by
  unfold MCPAgent._merge_responses
  have hvalid : s ∈ (responses.filterMap id).filter (fun r => !r.isEmpty) := by
    refine List.mem_filter.mpr ⟨?_, ?_⟩
    · exact List.mem_filterMap.mpr ⟨some s, hs, rfl⟩
    · simp [hne]
  have hnonempty :
      ¬ ((responses.filterMap id).filter (fun r => !r.isEmpty)).isEmpty = true := by
    rw [List.isEmpty_iff]
    intro h0
    rw [h0] at hvalid
    cases hvalid
  simp only []
  rw [if_neg hnonempty]
  rcases dedup_covers _ [] s hvalid (by simp) with ⟨u, hu, hueq⟩
  rcases joinSep_mem_parts (chars "\n\n") _ u hu with ⟨p, sfx, hps⟩
  rw [hps]
  refine isSub_of_parts _ p (u.drop 50 ++ sfx) _ ?_
  rw [← hueq]
  rw [List.append_assoc, List.append_assoc, ← List.append_assoc (u.take 50),
    List.take_append_drop]

lemma runHandler_env_frame (a : AgentType) (st : AgentCacheState) (now : ℕ)
    (q : List Char) {env env' : AgentEnv} (hag : envAgreeOn a env env') :
    runHandler a st now q env = runHandler a st now q env' := by
  cases a
  case STOCK =>
      have h1 : env.stockRes = env'.stockRes := hag
      simp only [runHandler, MCPAgent._handle_stock, withProviderCache,
        MCPAgent.stockBody, h1]
  case RAG =>
      obtain ⟨h1, h2, h3⟩ := hag
      simp only [runHandler, MCPAgent._handle_rag, withProviderCache,
        MCPAgent.ragBody, h1, h2, h3]
  case Portfolio =>
      obtain ⟨h1, h2, h3⟩ := hag
      simp only [runHandler, MCPAgent._handle_portfolio, withProviderCache,
        MCPAgent.portfolioBody, h1, h2, h3]
  case EMAIL =>
      have h1 : env.emailRes = env'.emailRes := hag
      simp only [runHandler, MCPAgent._handle_email, h1]
  case WEBSEARCH =>
      have h1 : env.websearchRes = env'.websearchRes := hag
      simp only [runHandler, MCPAgent._handle_websearch, withProviderCache,
        MCPAgent.websearchBody, h1]

/-- C2: for every query (and any provider outcomes, exceptions and timeouts
included) `run` yields a structured merged result: it equals the merge of the
per-candidate handler results — no exception propagates to the caller; a
timed-out rag call is converted into a non-fatal `None` entry; each candidate's
entry depends only on its own provider's outcome, so a timeout does not
disturb sibling providers; and every provider entry that did produce a
(nonempty) result is included in the returned response (witnessed through its
50-character dedup prefix). -/
theorem c2_run_total_isolated_inclusive :
    (∀ (θ : ℕ) (q : List Char) (st : AgentCacheState) (now : ℕ)
        (env : AgentEnv), st.cacheMap = [] →
        MCPAgent.run θ q st now env
          = { response := MCPAgent._merge_responses
                ((waveOrder (MCPAgent._route_query θ q)).map
                  (fun c => (runHandler c.1 st now c.2.1 env).1))
              selectedAgents := (MCPAgent._route_query θ q).map (fun c => c.1.value)
              state := st
              callLog := (waveOrder (MCPAgent._route_query θ q)).map (fun c => c.1) })
    ∧ (∀ (st : AgentCacheState) (now : ℕ) (q : List Char) (env : AgentEnv),
        st.cacheMap = [] → env.ragHasAsync = true → env.ragAsyncRes = .timeout →
        (runHandler .RAG st now q env).1 = Option.none)
    ∧ (∀ (a : AgentType) (st : AgentCacheState) (now : ℕ) (q : List Char)
        (env env' : AgentEnv), envAgreeOn a env env' →
        runHandler a st now q env = runHandler a st now q env')
    ∧ (∀ (responses : List (Option (List Char))) (s : List Char),
        some s ∈ responses → s ≠ [] →
        isSub (s.take 50) (MCPAgent._merge_responses responses) = true) := by
  refine ⟨fun θ q st now env h => run_empty h θ q now env, ?_,
    fun a st now q env env' hag => runHandler_env_frame a st now q hag,
    merge_includes⟩
  intro st now q env h hasync htimeout
  simp [runHandler, MCPAgent._handle_rag, withProviderCache_empty h,
    MCPAgent.ragBody, hasync, htimeout, MCPAgent._call_with_timeout]

/-- Witness for C2: a query routed to stock and rag, where the rag async call
times out while stock succeeds — the run is still structured, the rag entry is
`None`, stock's handler is unaffected by the rag timeout, and a successful
provider entry's prefix appears in the merged response. -/
theorem c2_run_total_isolated_inclusive_witness :
    MCPAgent.run 4 (chars "what is AAPL price") emptyCacheState 0
        envRagTimeoutStockOk
      = { response := MCPAgent._merge_responses
            ((waveOrder (MCPAgent._route_query 4 (chars "what is AAPL price"))).map
              (fun c => (runHandler c.1 emptyCacheState 0 c.2.1
                envRagTimeoutStockOk).1))
          selectedAgents := (MCPAgent._route_query 4
            (chars "what is AAPL price")).map (fun c => c.1.value)
          state := emptyCacheState
          callLog := (waveOrder (MCPAgent._route_query 4
            (chars "what is AAPL price"))).map (fun c => c.1) }
    ∧ (runHandler .RAG emptyCacheState 0 (chars "what is AAPL price")
        envRagTimeoutStockOk).1 = Option.none
    ∧ runHandler .STOCK emptyCacheState 0 (chars "what is AAPL price")
          envRagTimeoutStockOk
        = runHandler .STOCK emptyCacheState 0 (chars "what is AAPL price") envStockOk
    ∧ isSub ((chars "**Email:** sent").take 50)
        (MCPAgent._merge_responses [Option.none, some (chars "**Email:** sent")])
        = true :=
  ⟨c2_run_total_isolated_inclusive.1 4 (chars "what is AAPL price")
      emptyCacheState 0 envRagTimeoutStockOk rfl,
   c2_run_total_isolated_inclusive.2.1 emptyCacheState 0
      (chars "what is AAPL price") envRagTimeoutStockOk rfl rfl rfl,
   c2_run_total_isolated_inclusive.2.2.1 .STOCK emptyCacheState 0
      (chars "what is AAPL price") envRagTimeoutStockOk envStockOk rfl,
   c2_run_total_isolated_inclusive.2.2.2
      [Option.none, some (chars "**Email:** sent")] (chars "**Email:** sent")
      (by simp) (by decide)⟩

/-- C3: the claim states that two immediate identical `handle` calls issue
exactly one underlying call per provider and that the second returns
`cache_hit=true` from a final-response cache lookup.  Counterexample: `run`
consults no final cache and returns no cache-hit flag, and the per-provider
cache guard (`if not self._cache`) drops every write to the initially empty
cache — so over two runs both the email provider (TTL 0) and the stock
provider (TTL 60) are invoked twice, not once. -/
theorem c3_second_call_not_cached_counterexample :
    ((MCPAgent.run 4 (chars "notify me") emptyCacheState 0 envEmailOk).callLog
      ++ (MCPAgent.run 4 (chars "notify me")
          (MCPAgent.run 4 (chars "notify me") emptyCacheState 0 envEmailOk).state
          0 envEmailOk).callLog).count .EMAIL = 2
    ∧ ((MCPAgent.run 4 (chars "stock price") emptyCacheState 0 envStockOk).callLog
      ++ (MCPAgent.run 4 (chars "stock price")
          (MCPAgent.run 4 (chars "stock price") emptyCacheState 0
            envStockOk).state
          0 envStockOk).callLog).count .STOCK = 2
    ∧ (2 : ℕ) ≠ 1 := by
  refine ⟨by decide, by decide, by decide⟩

/-- C3 (amended): `run` performs no final-response cache lookup and returns no
cache-hit flag; `_set_cached`'s empty-dict guard drops every write to the
cache of a freshly constructed `MCPAgent`, so the cache state is invariant and
a repeated identical call behaves exactly like the first — it re-routes,
re-dispatches, and re-invokes every selected provider underlying agent. -/
theorem c3_no_retention_repeat_identical (θ : ℕ) (q : List Char)
    (st : AgentCacheState) (now now' : ℕ) (env : AgentEnv)
    (h : st.cacheMap = []) :
    (MCPAgent.run θ q st now env).state = st
    ∧ MCPAgent.run θ q (MCPAgent.run θ q st now env).state now' env
        = MCPAgent.run θ q st now' env := by
  have h1 : (MCPAgent.run θ q st now env).state = st := by
    rw [run_empty h]
  exact ⟨h1, by rw [h1]⟩

/-- Witness for C3's amended theorem at the stock query. -/
theorem c3_no_retention_repeat_identical_witness :
    (MCPAgent.run 4 (chars "stock price") emptyCacheState 0 envStockOk).state
      = emptyCacheState
    ∧ MCPAgent.run 4 (chars "stock price")
        (MCPAgent.run 4 (chars "stock price") emptyCacheState 0 envStockOk).state
        1 envStockOk
      = MCPAgent.run 4 (chars "stock price") emptyCacheState 1 envStockOk :=
  c3_no_retention_repeat_identical 4 (chars "stock price") emptyCacheState 0 1
    envStockOk rfl

lemma char_toNat_valid (c : Char) :
    c.toNat < 55296 ∨ (57343 < c.toNat ∧ c.toNat < 1114112) := by
  have h := c.valid
  unfold UInt32.isValidChar Nat.isValidChar at h
  exact h

lemma toNat_ofNat_valid {n : ℕ} (h : n.isValidChar) : (Char.ofNat n).toNat = n := by
  unfold Char.ofNat
  rw [dif_pos h]
  rfl

lemma ofNat_toNat_eq (c : Char) : Char.ofNat c.toNat = c := Char.ofNat_toNat c

lemma fromHex_hexDigit : ∀ d < 16, fromHexDigit (hexDigitChar d) = some d := by
  decide

lemma parseHex4_hex4 (n : ℕ) (hn : n < 65536) (r : List Char) :
    parseHex4 (hex4 n ++ r) = some (n, r) := by
  have h1 := fromHex_hexDigit (n / 4096 % 16) (by omega)
  have h2 := fromHex_hexDigit (n / 256 % 16) (by omega)
  have h3 := fromHex_hexDigit (n / 16 % 16) (by omega)
  have h4 := fromHex_hexDigit (n % 16) (by omega)
  simp only [hex4, List.cons_append, List.nil_append, parseHex4, h1, h2, h3, h4]
  have harith : n / 4096 % 16 * 4096 + n / 256 % 16 * 256 + n / 16 % 16 * 16
      + n % 16 = n := by omega
  rw [harith]

lemma parseStrBody_quote (f : ℕ) (rest : List Char) :
    parseStrBody (f + 1) ('"' :: rest) = some ([], rest) := by
  simp [parseStrBody]

lemma parseStrBody_short_step (f : ℕ) (e : Char) (X : List Char)
    (he : ¬ e = 'u') (d : Char) (hd : unescapeShort e = some d) :
    parseStrBody (f + 1) ('\\' :: e :: X)
      = match parseStrBody f X with
        | some (s, r) => some (d :: s, r)
        | Option.none => Option.none := by
  simp only [parseStrBody, if_true, if_false]
  rw [if_neg he, hd]
  rw [if_neg (by decide : ¬ ('\\' : Char) = '"')]

lemma parseStrBody_plain_step (f : ℕ) (c : Char) (X : List Char)
    (h1 : ¬ c = '"') (h2 : ¬ c = '\\') (h3 : ¬ c.toNat < 32) :
    parseStrBody (f + 1) (c :: X)
      = match parseStrBody f X with
        | some (s, r) => some (c :: s, r)
        | Option.none => Option.none := by
  simp only [parseStrBody]
  rw [if_neg h1, if_neg h2, if_neg h3]

lemma parseStrBody_u_step (f n : ℕ) (hn : n < 65536)
    (hs1 : ¬ (55296 ≤ n ∧ n ≤ 56319)) (hs2 : ¬ (56320 ≤ n ∧ n ≤ 57343))
    (X : List Char) :
    parseStrBody (f + 1) ('\\' :: 'u' :: (hex4 n ++ X))
      = match parseStrBody f X with
        | some (s, r) => some (Char.ofNat n :: s, r)
        | Option.none => Option.none := by
  simp only [parseStrBody, if_true, if_false]
  simp only [parseHex4_hex4 n hn, if_neg hs1, if_neg hs2]
  rw [if_neg (by decide : ¬ ('\\' : Char) = '"')]

lemma parseStrBody_pair_step (f n m : ℕ) (hn : n < 65536) (hm : m < 65536)
    (hs1 : 55296 ≤ n ∧ n ≤ 56319) (hs2 : 56320 ≤ m ∧ m ≤ 57343)
    (X : List Char) :
    parseStrBody (f + 1)
        ('\\' :: 'u' :: (hex4 n ++ ('\\' :: 'u' :: (hex4 m ++ X))))
      = match parseStrBody f X with
        | some (s, r) =>
            some (Char.ofNat (65536 + (n - 55296) * 1024 + (m - 56320)) :: s, r)
        | Option.none => Option.none := by
  simp only [parseStrBody, if_true, if_false]
  simp only [parseHex4_hex4 n hn, if_pos hs1]
  simp only [parseHex4_hex4 m hm, if_pos hs2]
  rw [if_neg (by decide : ¬ ('\\' : Char) = '"')]

lemma parseStrBody_escape :
    ∀ (s : List Char) (fuel : ℕ) (rest : List Char), s.length < fuel →
      parseStrBody fuel (s.flatMap jsonEscapeChar ++ '"' :: rest)
        = some (s, rest) := by
  intro s
  induction s with
  | nil =>
      intro fuel rest hf
      match fuel, hf with
      | f + 1, _ =>
          simp only [List.flatMap_nil, List.nil_append]
          exact parseStrBody_quote f rest
  | cons c t ih =>
      intro fuel rest hf
      match fuel, hf with
      | f + 1, hf =>
          have hft : t.length < f := by
            simp only [List.length_cons] at hf
            omega
          have hrec := ih f rest hft
          simp only [List.flatMap_cons, List.append_assoc]
          by_cases h1 : c = '"'
          · subst h1
            rw [show jsonEscapeChar '"' = ['\\', '"'] from rfl]
            simp only [List.cons_append, List.nil_append]
            rw [parseStrBody_short_step f '"' _ (by decide) '"' (by decide), hrec]
          · by_cases h2 : c = '\\'
            · subst h2
              rw [show jsonEscapeChar '\\' = ['\\', '\\'] from rfl]
              simp only [List.cons_append, List.nil_append]
              rw [parseStrBody_short_step f '\\' _ (by decide) '\\' (by decide),
                hrec]
            · by_cases h3 : c = '\n'
              · subst h3
                rw [show jsonEscapeChar '\n' = ['\\', 'n'] from rfl]
                simp only [List.cons_append, List.nil_append]
                rw [parseStrBody_short_step f 'n' _ (by decide) '\n' (by decide),
                  hrec]
              · by_cases h4 : c = '\r'
                · subst h4
                  rw [show jsonEscapeChar '\r' = ['\\', 'r'] from rfl]
                  simp only [List.cons_append, List.nil_append]
                  rw [parseStrBody_short_step f 'r' _ (by decide) '\r'
                    (by decide), hrec]
                · by_cases h5 : c = '\t'
                  · subst h5
                    rw [show jsonEscapeChar '\t' = ['\\', 't'] from rfl]
                    simp only [List.cons_append, List.nil_append]
                    rw [parseStrBody_short_step f 't' _ (by decide) '\t'
                      (by decide), hrec]
                  · by_cases h6 : c = '\x08'
                    · subst h6
                      rw [show jsonEscapeChar '\x08' = ['\\', 'b'] from rfl]
                      simp only [List.cons_append, List.nil_append]
                      rw [parseStrBody_short_step f 'b' _ (by decide) '\x08'
                        (by decide), hrec]
                    · by_cases h7 : c = '\x0c'
                      · subst h7
                        rw [show jsonEscapeChar '\x0c' = ['\\', 'f'] from rfl]
                        simp only [List.cons_append, List.nil_append]
                        rw [parseStrBody_short_step f 'f' _ (by decide) '\x0c'
                          (by decide), hrec]
                      · by_cases h8 : c.toNat < 32 ∨ 127 ≤ c.toNat
                        · have hesc : jsonEscapeChar c
                              = if c.toNat < 65536 then
                                  '\\' :: 'u' :: hex4 c.toNat
                                else
                                  ('\\' :: 'u' :: hex4 (55296 + (c.toNat - 65536) / 1024))
                                    ++ ('\\' :: 'u' :: hex4 (56320 + (c.toNat - 65536) % 1024)) := by
                            unfold jsonEscapeChar
                            rw [if_neg h1, if_neg h2, if_neg h3, if_neg h4,
                              if_neg h5, if_neg h6, if_neg h7, if_pos h8]
                          have hval := char_toNat_valid c
                          by_cases h9 : c.toNat < 65536
                          · rw [hesc, if_pos h9]
                            simp only [List.cons_append]
                            rw [parseStrBody_u_step f c.toNat h9 (by omega)
                              (by omega), hrec, ofNat_toNat_eq]
                          · rw [hesc, if_neg h9]
                            simp only [List.cons_append, List.append_assoc]
                            rw [parseStrBody_pair_step f
                              (55296 + (c.toNat - 65536) / 1024)
                              (56320 + (c.toNat - 65536) % 1024)
                              (by omega) (by omega)
                              ⟨by omega, by omega⟩ ⟨by omega, by omega⟩, hrec]
                            have hchar : 65536
                                + (55296 + (c.toNat - 65536) / 1024 - 55296) * 1024
                                + (56320 + (c.toNat - 65536) % 1024 - 56320)
                                = c.toNat := by omega
                            rw [hchar, ofNat_toNat_eq]
                        · have hesc : jsonEscapeChar c = [c] := by
                            unfold jsonEscapeChar
                            rw [if_neg h1, if_neg h2, if_neg h3, if_neg h4,
                              if_neg h5, if_neg h6, if_neg h7, if_neg h8]
                          rw [hesc]
                          simp only [List.singleton_append]
                          push_neg at h8
                          rw [parseStrBody_plain_step f c _ h1 h2
                            (by omega), hrec]

lemma isDigit_iff_toNat (c : Char) :
    c.isDigit = true ↔ 48 ≤ c.toNat ∧ c.toNat ≤ 57 := by
  unfold Char.isDigit
  simp only [Bool.and_eq_true, decide_eq_true_eq]
  constructor
  · rintro ⟨h1, h2⟩
    exact ⟨h1, h2⟩
  · rintro ⟨h1, h2⟩
    exact ⟨h1, h2⟩

lemma natDecAux_zero_fuel (fuel : ℕ) : natDecAux fuel 0 = [] := by
  cases fuel <;> rfl

lemma natDecAux_digit_bounds :
    ∀ (fuel n : ℕ), ∀ c ∈ natDecAux fuel n, 48 ≤ c.toNat ∧ c.toNat ≤ 57 := by
  intro fuel
  induction fuel with
  | zero => intro n c hc; cases hc
  | succ f ih =>
      intro n c hc
      match n with
      | 0 => cases hc
      | m + 1 =>
          simp only [natDecAux] at hc
          rcases List.mem_append.mp hc with h | h
          · exact ih _ c h
          · simp only [List.mem_singleton] at h
            subst h
            have hm : (m + 1) % 10 < 10 := Nat.mod_lt _ (by omega)
            unfold digitChar
            rw [toNat_ofNat_valid (by left; omega)]
            omega

lemma natDecAux_ne_nil (fuel n : ℕ) (h1 : 1 ≤ n) (h2 : n ≤ fuel) :
    natDecAux fuel n ≠ [] := by
  match fuel, n with
  | 0, _ => omega
  | _ + 1, 0 => omega
  | f + 1, m + 1 =>
      simp only [natDecAux]
      intro hc
      rcases List.append_eq_nil.mp hc with ⟨_, h⟩
      cases h

lemma natDecAux_head_ne_zero :
    ∀ (fuel n : ℕ), 1 ≤ n → n ≤ fuel →
      (natDecAux fuel n).head? ≠ some '0' := by
  intro fuel
  induction fuel with
  | zero => intro n h1 h2; omega
  | succ f ih =>
      intro n h1 h2
      match n, h1 with
      | m + 1, _ =>
          simp only [natDecAux]
          by_cases hq : (m + 1) / 10 = 0
          · rw [hq, natDecAux_zero_fuel, List.nil_append]
            have hlt : m + 1 < 10 := by omega
            have hmod : (m + 1) % 10 = m + 1 := Nat.mod_eq_of_lt hlt
            simp only [List.head?_cons]
            intro hcon
            rw [hmod] at hcon
            have h0 : (digitChar (m + 1)).toNat = 48 + (m + 1) := by
              unfold digitChar
              exact toNat_ofNat_valid (by left; omega)
            have hch := congrArg Char.toNat (Option.some.inj hcon)
            rw [h0] at hch
            have hz : ('0' : Char).toNat = 48 := rfl
            rw [hz] at hch
            omega
          · have hrec : natDecAux f ((m + 1) / 10) ≠ [] := by
              refine natDecAux_ne_nil f _ (by omega) (by omega)
            intro hcon
            rcases List.exists_cons_of_ne_nil hrec with ⟨x, xs, hx⟩
            rw [hx] at hcon
            simp only [List.cons_append, List.head?_cons] at hcon
            refine ih ((m + 1) / 10) (by omega) (by omega) ?_
            rw [hx, List.head?_cons]
            exact hcon

lemma natDecAux_foldl :
    ∀ (fuel n acc : ℕ), n ≤ fuel →
      (natDecAux fuel n).foldl (fun a c => a * 10 + (c.toNat - 48)) acc
        = acc * 10 ^ (natDecAux fuel n).length + n := by
  intro fuel
  induction fuel with
  | zero =>
      intro n acc h
      have : n = 0 := by omega
      subst this
      simp [natDecAux]
  | succ f ih =>
      intro n acc h
      match n with
      | 0 => simp [natDecAux_zero_fuel]
      | m + 1 =>
          simp only [natDecAux, List.foldl_append, List.length_append,
            List.length_cons, List.length_nil]
          rw [ih ((m + 1) / 10) acc (by omega)]
          simp only [List.foldl_cons, List.foldl_nil]
          have h0 : (digitChar ((m + 1) % 10)).toNat = 48 + (m + 1) % 10 := by
            unfold digitChar
            exact toNat_ofNat_valid (by left; omega)
          rw [h0]
          have hdm : (m + 1) / 10 * 10 + ((m + 1) % 10) = m + 1 := by omega
          have hsub : 48 + (m + 1) % 10 - 48 = (m + 1) % 10 := by omega
          rw [hsub]
          calc (acc * 10 ^ (natDecAux f ((m + 1) / 10)).length + (m + 1) / 10) * 10
                + (m + 1) % 10
              = acc * (10 ^ (natDecAux f ((m + 1) / 10)).length * 10)
                + ((m + 1) / 10 * 10 + (m + 1) % 10) := by ring
            _ = acc * 10 ^ ((natDecAux f ((m + 1) / 10)).length + 1) + (m + 1) := by
                rw [hdm, pow_succ]

lemma takeWhile_digits_append (a b : List Char)
    (ha : ∀ c ∈ a, c.isDigit = true)
    (hb : ∀ c, b.head? = some c → c.isDigit = false) :
    (a ++ b).takeWhile (fun c => c.isDigit) = a
    ∧ (a ++ b).dropWhile (fun c => c.isDigit) = b := by
  induction a with
  | nil =>
      simp only [List.nil_append]
      cases b with
      | nil => simp
      | cons c t =>
          have := hb c rfl
          simp [List.takeWhile_cons, List.dropWhile_cons, this]
  | cons c t ih =>
      have hc := ha c (List.mem_cons_self c t)
      have ht := ih (fun d hd => ha d (List.mem_cons_of_mem c hd))
      simp only [List.cons_append, List.takeWhile_cons, List.dropWhile_cons, hc,
        if_true]
      exact ⟨by rw [ht.1], ht.2⟩

lemma natDecimal_all_digits (n : ℕ) : ∀ c ∈ natDecimal n, c.isDigit = true := by
  intro c hc
  unfold natDecimal at hc
  split_ifs at hc
  · simp only [List.mem_singleton] at hc
    subst hc
    decide
  · rw [isDigit_iff_toNat]
    exact natDecAux_digit_bounds n n c hc

lemma natDecimal_foldl (n : ℕ) :
    (natDecimal n).foldl (fun a c => a * 10 + (c.toNat - 48)) 0 = n := by
  unfold natDecimal
  split_ifs with h
  · subst h
    decide
  · rw [natDecAux_foldl n n 0 le_rfl]
    simp

lemma natDecimal_ne_nil (n : ℕ) : natDecimal n ≠ [] := by
  unfold natDecimal
  split_ifs with h
  · simp
  · exact natDecAux_ne_nil n n (by omega) le_rfl

lemma natDecimal_no_leading_zero (n : ℕ) :
    ¬ ((natDecimal n).length > 1 ∧ (natDecimal n).head? = some '0') := by
  unfold natDecimal
  split_ifs with h
  · simp
  · rintro ⟨_, hh⟩
    exact natDecAux_head_ne_zero n n (by omega) le_rfl hh

lemma parseNat_natDecimal (n : ℕ) (rest : List Char)
    (hd : ∀ c, rest.head? = some c → c.isDigit = false) :
    parseNat (natDecimal n ++ rest) = some (n, rest) := by
  unfold parseNat
  have htw := takeWhile_digits_append (natDecimal n) rest
    (natDecimal_all_digits n) hd
  rw [htw.1, htw.2]
  rw [if_neg (by
    intro hcon
    exact natDecimal_ne_nil n (List.isEmpty_iff.mp hcon))]
  rw [if_neg (natDecimal_no_leading_zero n), natDecimal_foldl n]

lemma parseNumber_intDecimal (i : ℤ) (rest : List Char)
    (hb : floatFollow rest = false)
    (hd : ∀ c, rest.head? = some c → c.isDigit = false) :
    parseNumber (intDecimal i ++ rest) = some (.int i, rest) := by
  unfold intDecimal
  split_ifs with hneg
  · simp only [List.cons_append]
    show (match parseNat (natDecimal i.natAbs ++ rest) with
      | some (n, r) =>
          if floatFollow r = true then Option.none
          else some (PyVal.int (-(n : ℤ)), r)
      | Option.none => Option.none) = some (PyVal.int i, rest)
    rw [parseNat_natDecimal i.natAbs rest hd]
    simp only [hb, Bool.false_eq_true, if_false]
    have hcast : (-(i.natAbs : ℤ)) = i := by omega
    rw [hcast]
  · rcases List.exists_cons_of_ne_nil (natDecimal_ne_nil i.natAbs) with
      ⟨c, cs, hx⟩
    have hcd : c.isDigit = true := natDecimal_all_digits i.natAbs c
      (by rw [hx]; exact List.mem_cons_self c cs)
    have hcm : ¬ c = '-' := by
      intro hcon
      subst hcon
      rw [isDigit_iff_toNat] at hcd
      have : ('-' : Char).toNat = 45 := rfl
      omega
    rw [hx]
    simp only [List.cons_append]
    unfold parseNumber
    split
    · rename_i heq
      have := List.head_eq_of_cons_eq heq
      exact absurd this hcm
    · rw [show (c :: (cs ++ rest)) = (natDecimal i.natAbs ++ rest) by
        rw [hx, List.cons_append]]
      rw [parseNat_natDecimal i.natAbs rest hd]
      simp only [hb, Bool.false_eq_true, if_false]
      have hcast : ((i.natAbs : ℤ)) = i := by omega
      rw [hcast]

lemma aset_append_of_not_mem (k : List Char) (v : PyVal)
    (d : List (List Char × PyVal))
    (h : d.any (fun e => decide (e.1 = k)) = false) :
    aset k v d = d ++ [(k, v)] := by
  induction d with
  | nil => rfl
  | cons e t ih =>
      simp only [List.any_cons, Bool.or_eq_false_iff, decide_eq_false_iff_not]
        at h
      simp only [aset, List.cons_append]
      rw [if_neg h.1, ih h.2]

lemma foldl_aset_disjoint :
    ∀ (pairs : List (List Char × PyVal)) (acc : List (List Char × PyVal)),
      nodupKeys pairs = true →
      (∀ f ∈ pairs, acc.any (fun g => decide (g.1 = f.1)) = false) →
      pairs.foldl (fun d e => aset e.1 e.2 d) acc = acc ++ pairs := by
  intro pairs
  induction pairs with
  | nil => intro acc _ _; simp
  | cons e t ih =>
      intro acc hnd hdisj
      simp only [nodupKeys, Bool.and_eq_true, Bool.not_eq_true',
        List.any_eq_false, decide_eq_false_iff_not] at hnd
      simp only [List.foldl_cons]
      rw [aset_append_of_not_mem e.1 e.2 acc
        (hdisj e (List.mem_cons_self e t))]
      rw [ih (acc ++ [(e.1, e.2)]) hnd.2 ?_]
      · simp
      · intro f hf
        rw [List.any_append]
        simp only [Bool.or_eq_false_iff]
        constructor
        · exact hdisj f (List.mem_cons_of_mem e hf)
        · simp only [List.any_cons, List.any_nil, Bool.or_false,
            decide_eq_false_iff_not]
          intro hcon
          exact (hnd.1 f hf) (by rw [hcon]; simp)

lemma dictFromPairs_nodup (pairs : List (List Char × PyVal))
    (h : nodupKeys pairs = true) : dictFromPairs pairs = pairs := by
  unfold dictFromPairs
  rw [foldl_aset_disjoint pairs [] h (fun f _ => rfl)]
  rfl

lemma jsonEscapeChar_ne_nil (c : Char) : jsonEscapeChar c ≠ [] := by
  unfold jsonEscapeChar
  split_ifs <;> simp

lemma flatMap_escape_length (s : List Char) :
    s.length ≤ (s.flatMap jsonEscapeChar).length := by
  induction s with
  | nil => simp
  | cons c t ih =>
      simp only [List.flatMap_cons, List.length_append, List.length_cons]
      have := jsonEscapeChar_ne_nil c
      have hpos : 0 < (jsonEscapeChar c).length := List.length_pos.mpr this
      omega

lemma intDecimal_head (i : ℤ) :
    ∃ c cs, intDecimal i = c :: cs
      ∧ (c = '-' ∨ (48 ≤ c.toNat ∧ c.toNat ≤ 57)) := by
  unfold intDecimal
  split_ifs with h
  · exact ⟨'-', natDecimal i.natAbs, rfl, Or.inl rfl⟩
  · rcases List.exists_cons_of_ne_nil (natDecimal_ne_nil i.natAbs) with
      ⟨c, cs, hx⟩
    refine ⟨c, cs, hx, Or.inr ?_⟩
    rw [← isDigit_iff_toNat]
    exact natDecimal_all_digits i.natAbs c (by rw [hx]; simp)

lemma jsonDumps_head (v : PyVal) :
    ∃ c cs, jsonDumps v = c :: cs
      ∧ (c = 'n' ∨ c = 't' ∨ c = 'f' ∨ c = '"' ∨ c = '[' ∨ c = '\x7b'
          ∨ c = '-' ∨ (48 ≤ c.toNat ∧ c.toNat ≤ 57)) := by
  match v with
  | .none => exact ⟨'n', chars "ull", rfl, by tauto⟩
  | .bool true => exact ⟨'t', chars "rue", rfl, by tauto⟩
  | .bool false => exact ⟨'f', chars "alse", rfl, by tauto⟩
  | .int i =>
      rcases intDecimal_head i with ⟨c, cs, hx, hc⟩
      exact ⟨c, cs, hx, by tauto⟩
  | .str s => exact ⟨'"', _, rfl, by tauto⟩
  | .list xs => exact ⟨'[', _, rfl, by tauto⟩
  | .dict d => exact ⟨'\x7b', _, rfl, by tauto⟩

lemma jsonDumps_ne_nil (v : PyVal) : jsonDumps v ≠ [] := by
  rcases jsonDumps_head v with ⟨c, cs, hx, _⟩
  rw [hx]
  exact List.cons_ne_nil c cs

lemma skipWs_dumps (v : PyVal) (X : List Char) :
    skipWs (jsonDumps v ++ X) = jsonDumps v ++ X := by
  rcases jsonDumps_head v with ⟨c, cs, hx, hc⟩
  rw [hx]
  simp only [List.cons_append, skipWs, List.dropWhile_cons]
  rw [if_neg ?_]
  intro hcon
  unfold jsonWs at hcon
  simp only [Bool.or_eq_true, decide_eq_true_eq] at hcon
  rcases hcon with ((h1 | h1) | h1) | h1 <;> subst h1 <;> revert hc <;> decide

lemma skipWs_cons_space (X : List Char) : skipWs (' ' :: X) = skipWs X := by
  simp [skipWs, List.dropWhile_cons, jsonWs]

lemma skipWs_not_ws (c : Char) (X : List Char) (h : jsonWs c = false) :
    skipWs (c :: X) = c :: X := by
  simp [skipWs, List.dropWhile_cons, h]

lemma parseValue_null_step (fuel : ℕ) (rest : List Char) :
    parseValue (fuel + 1) (chars "null" ++ rest) = some (.none, rest) := by
  show parseValue (fuel + 1) ('n' :: 'u' :: 'l' :: 'l' :: rest) = _
  simp [parseValue, chars, List.isPrefixOf]

lemma parseValue_true_step (fuel : ℕ) (rest : List Char) :
    parseValue (fuel + 1) (chars "true" ++ rest) = some (.bool true, rest) := by
  show parseValue (fuel + 1) ('t' :: 'r' :: 'u' :: 'e' :: rest) = _
  simp [parseValue, chars, List.isPrefixOf]

lemma parseValue_false_step (fuel : ℕ) (rest : List Char) :
    parseValue (fuel + 1) (chars "false" ++ rest)
      = some (.bool false, rest) := by
  show parseValue (fuel + 1) ('f' :: 'a' :: 'l' :: 's' :: 'e' :: rest) = _
  simp [parseValue, chars, List.isPrefixOf]

lemma parseValue_str_step (fuel : ℕ) (s rest : List Char) :
    parseValue (fuel + 1) (jsonQuote s ++ rest) = some (.str s, rest) := by
  have hinput : jsonQuote s ++ rest
      = '"' :: (s.flatMap jsonEscapeChar ++ '"' :: rest) := by
    simp [jsonQuote]
  rw [hinput]
  simp only [parseValue, if_true, if_false]
  rw [parseStrBody_escape s _ rest (by
    have := flatMap_escape_length s
    simp only [List.length_append, List.length_cons]
    omega)]
  simp

lemma parseValue_int_step (fuel : ℕ) (i : ℤ) (rest : List Char)
    (hb : floatFollow rest = false)
    (hd : ∀ c, rest.head? = some c → c.isDigit = false) :
    parseValue (fuel + 1) (intDecimal i ++ rest) = some (.int i, rest) := by
  rcases intDecimal_head i with ⟨c, cs, hx, hc⟩
  have hto : c.toNat = 45 ∨ (48 ≤ c.toNat ∧ c.toNat ≤ 57) := by
    rcases hc with h | h
    · left; rw [h]; rfl
    · right; exact h
  have h1 : ¬ c = 't' := by intro h; rw [h] at hto; revert hto; decide
  have h2 : ¬ c = 'f' := by intro h; rw [h] at hto; revert hto; decide
  have h3 : ¬ c = 'n' := by intro h; rw [h] at hto; revert hto; decide
  have h4 : ¬ c = '"' := by intro h; rw [h] at hto; revert hto; decide
  have h5 : ¬ c = '[' := by intro h; rw [h] at hto; revert hto; decide
  have h6 : ¬ c = '\x7b' := by intro h; rw [h] at hto; revert hto; decide
  rw [hx, List.cons_append]
  simp only [parseValue]
  rw [if_neg h1, if_neg h2, if_neg h3, if_neg h4, if_neg h5, if_neg h6]
  rw [← List.cons_append, ← hx]
  exact parseNumber_intDecimal i rest hb hd

lemma parseValue_list_nil_step (fuel : ℕ) (rest : List Char) :
    parseValue (fuel + 1) (jsonDumps (.list []) ++ rest)
      = some (.list [], rest) := by
  show parseValue (fuel + 1) ('[' :: ']' :: rest) = _
  simp [parseValue, skipWs, List.dropWhile_cons, jsonWs]

lemma parseValue_dict_nil_step (fuel : ℕ) (rest : List Char) :
    parseValue (fuel + 1) (jsonDumps (.dict []) ++ rest)
      = some (.dict [], rest) := by
  show parseValue (fuel + 1) ('\x7b' :: '\x7d' :: rest) = _
  simp [parseValue, skipWs, List.dropWhile_cons, jsonWs]

lemma dumpsList_cons_shape (x : PyVal) (t : List PyVal) (X : List Char) :
    ∃ Y, jsonDumpsList (x :: t) ++ X = jsonDumps x ++ Y := by
  cases t with
  | nil => exact ⟨X, by simp [jsonDumpsList]⟩
  | cons y t2 =>
      exact ⟨chars ", " ++ (jsonDumpsList (y :: t2) ++ X), by
        simp [jsonDumpsList, List.append_assoc]⟩

lemma skipWs_dumpsList (x : PyVal) (t : List PyVal) (X : List Char) :
    skipWs (jsonDumpsList (x :: t) ++ X) = jsonDumpsList (x :: t) ++ X := by
  rcases dumpsList_cons_shape x t X with ⟨Y, hY⟩
  rw [hY]
  exact skipWs_dumps x Y

lemma jsonDumps_head_ne (v : PyVal) :
    ∀ c cs, jsonDumps v = c :: cs → ¬ c = ']' ∧ ¬ c = '\x7d' := by
  intro c cs hx
  rcases jsonDumps_head v with ⟨d, ds, hx2, hd⟩
  rw [hx2] at hx
  injection hx with h1 _
  subst h1
  constructor <;> intro hcon <;> rw [hcon] at hd <;> revert hd <;> decide

lemma parseValue_list_cons_step (fuel : ℕ) (x : PyVal) (t : List PyVal)
    (rest : List Char)
    (h : parseArrayItems fuel (jsonDumpsList (x :: t) ++ ']' :: rest)
      = some (x :: t, rest)) :
    parseValue (fuel + 1) (jsonDumps (.list (x :: t)) ++ rest)
      = some (.list (x :: t), rest) := by
  have hin : jsonDumps (.list (x :: t)) ++ rest
      = '[' :: (jsonDumpsList (x :: t) ++ ']' :: rest) := by
    simp [jsonDumps, List.append_assoc]
  rw [hin]
  simp only [parseValue]
  rw [if_neg (by decide : ¬ ('[' : Char) = 't'),
    if_neg (by decide : ¬ ('[' : Char) = 'f'),
    if_neg (by decide : ¬ ('[' : Char) = 'n'),
    if_neg (by decide : ¬ ('[' : Char) = '"'),
    if_pos trivial]
  rw [skipWs_dumpsList x t (']' :: rest)]
  rcases dumpsList_cons_shape x t (']' :: rest) with ⟨Y, hY⟩
  rcases jsonDumps_head x with ⟨c, cs, hx, _⟩
  have hcne := (jsonDumps_head_ne x c cs hx).1
  rw [hY, hx, List.cons_append] at h ⊢
  split
  · rename_i heq
    injection heq with h1 _
    exact absurd h1 hcne
  · rw [h]

lemma dumpsEntries_cons_shape (k : List Char) (v : PyVal)
    (t : List (List Char × PyVal)) (X : List Char) :
    ∃ Z, jsonDumpsEntries ((k, v) :: t) ++ X
      = '"' :: (k.flatMap jsonEscapeChar ++ '"' :: Z)
      ∧ ((t = [] ∧ Z = chars ": " ++ (jsonDumps v ++ X))
        ∨ (t ≠ [] ∧ Z = chars ": " ++ (jsonDumps v ++ (chars ", "
            ++ (jsonDumpsEntries t ++ X))))) := by
  cases t with
  | nil =>
      refine ⟨chars ": " ++ (jsonDumps v ++ X), ?_, Or.inl ⟨rfl, rfl⟩⟩
      simp [jsonDumpsEntries, jsonQuote, List.append_assoc]
  | cons e t2 =>
      refine ⟨chars ": " ++ (jsonDumps v ++ (chars ", "
        ++ (jsonDumpsEntries (e :: t2) ++ X))), ?_,
        Or.inr ⟨by simp, rfl⟩⟩
      simp [jsonDumpsEntries, jsonQuote, List.append_assoc]

lemma parseValue_dict_cons_step (fuel : ℕ) (k : List Char) (v : PyVal)
    (t : List (List Char × PyVal)) (rest : List Char)
    (h : parseObjectItems fuel
        (jsonDumpsEntries ((k, v) :: t) ++ '\x7d' :: rest)
      = some ((k, v) :: t, rest))
    (hnd : nodupKeys ((k, v) :: t) = true) :
    parseValue (fuel + 1) (jsonDumps (.dict ((k, v) :: t)) ++ rest)
      = some (.dict ((k, v) :: t), rest) := by
  have hin : jsonDumps (.dict ((k, v) :: t)) ++ rest
      = '\x7b' :: (jsonDumpsEntries ((k, v) :: t) ++ '\x7d' :: rest) := by
    simp [jsonDumps, List.append_assoc]
  rw [hin]
  simp only [parseValue]
  rw [if_neg (by decide : ¬ ('\x7b' : Char) = 't'),
    if_neg (by decide : ¬ ('\x7b' : Char) = 'f'),
    if_neg (by decide : ¬ ('\x7b' : Char) = 'n'),
    if_neg (by decide : ¬ ('\x7b' : Char) = '"'),
    if_neg (by decide : ¬ ('\x7b' : Char) = '['),
    if_pos trivial]
  rcases dumpsEntries_cons_shape k v t ('\x7d' :: rest) with ⟨Z, hZ, _⟩
  rw [hZ] at h ⊢
  rw [skipWs_not_ws '"' _ (by decide)]
  split
  · rename_i heq
    injection heq with h1 _
    exact absurd h1 (by decide)
  · rw [h]
    show some (PyVal.dict (dictFromPairs ((k, v) :: t)), rest) = _
    rw [dictFromPairs_nodup _ hnd]

lemma parseArrayItems_single_step (f : ℕ) (x : PyVal) (rest : List Char)
    (h : parseValue f (jsonDumps x ++ ']' :: rest) = some (x, ']' :: rest)) :
    parseArrayItems (f + 1) (jsonDumpsList [x] ++ ']' :: rest)
      = some ([x], rest) := by
  have hin : jsonDumpsList [x] ++ ']' :: rest
      = jsonDumps x ++ ']' :: rest := by
    simp [jsonDumpsList]
  rw [hin]
  simp only [parseArrayItems, h]
  rw [skipWs_not_ws ']' rest (by decide)]
  rfl

lemma parseArrayItems_cons_step (f : ℕ) (x y : PyVal) (t : List PyVal)
    (rest : List Char)
    (h1 : parseValue f (jsonDumps x
        ++ ',' :: ' ' :: (jsonDumpsList (y :: t) ++ ']' :: rest))
      = some (x, ',' :: ' ' :: (jsonDumpsList (y :: t) ++ ']' :: rest)))
    (h2 : parseArrayItems f (jsonDumpsList (y :: t) ++ ']' :: rest)
      = some (y :: t, rest)) :
    parseArrayItems (f + 1) (jsonDumpsList (x :: y :: t) ++ ']' :: rest)
      = some (x :: y :: t, rest) := by
  have hin : jsonDumpsList (x :: y :: t) ++ ']' :: rest
      = jsonDumps x
        ++ ',' :: ' ' :: (jsonDumpsList (y :: t) ++ ']' :: rest) := by
    show (jsonDumps x ++ chars ", " ++ jsonDumpsList (y :: t)) ++ ']' :: rest
      = _
    simp [chars, List.append_assoc]
  rw [hin]
  simp only [parseArrayItems, h1]
  rw [show skipWs (',' :: ' ' :: (jsonDumpsList (y :: t) ++ ']' :: rest))
    = ',' :: ' ' :: (jsonDumpsList (y :: t) ++ ']' :: rest)
    from skipWs_not_ws ',' _ (by decide)]
  simp only [skipWs_cons_space, skipWs_dumpsList, h2]

lemma parseObjectItems_single_step (f : ℕ) (k : List Char) (v : PyVal)
    (rest : List Char)
    (h : parseValue f (jsonDumps v ++ '\x7d' :: rest)
      = some (v, '\x7d' :: rest)) :
    parseObjectItems (f + 1) (jsonDumpsEntries [(k, v)] ++ '\x7d' :: rest)
      = some ([(k, v)], rest) := by
  have hin : jsonDumpsEntries [(k, v)] ++ '\x7d' :: rest
      = '"' :: (k.flatMap jsonEscapeChar
          ++ '"' :: (':' :: ' ' :: (jsonDumps v ++ '\x7d' :: rest))) := by
    show (jsonQuote k ++ chars ": " ++ jsonDumps v) ++ '\x7d' :: rest = _
    simp [jsonQuote, chars, List.append_assoc]
  rw [hin]
  simp only [parseObjectItems]
  rw [parseStrBody_escape k _ _ (by
    have := flatMap_escape_length k
    simp only [List.length_append, List.length_cons]
    omega)]
  simp only [skipWs_not_ws ':' _ (by decide : jsonWs ':' = false)]
  simp only [skipWs_cons_space, skipWs_dumps, h]
  rw [skipWs_not_ws '\x7d' rest (by decide)]
  rfl

lemma parseObjectItems_cons_step (f : ℕ) (k : List Char) (v : PyVal)
    (e : List Char × PyVal) (t : List (List Char × PyVal))
    (rest : List Char)
    (h1 : parseValue f (jsonDumps v ++ ',' :: ' '
        :: (jsonDumpsEntries (e :: t) ++ '\x7d' :: rest))
      = some (v, ',' :: ' '
        :: (jsonDumpsEntries (e :: t) ++ '\x7d' :: rest)))
    (h2 : parseObjectItems f (jsonDumpsEntries (e :: t) ++ '\x7d' :: rest)
      = some (e :: t, rest)) :
    parseObjectItems (f + 1)
        (jsonDumpsEntries ((k, v) :: e :: t) ++ '\x7d' :: rest)
      = some ((k, v) :: e :: t, rest) := by
  have hin : jsonDumpsEntries ((k, v) :: e :: t) ++ '\x7d' :: rest
      = '"' :: (k.flatMap jsonEscapeChar
          ++ '"' :: (':' :: ' ' :: (jsonDumps v ++ ',' :: ' '
            :: (jsonDumpsEntries (e :: t) ++ '\x7d' :: rest)))) := by
    show (jsonQuote k ++ chars ": " ++ jsonDumps v ++ chars ", "
        ++ jsonDumpsEntries (e :: t)) ++ '\x7d' :: rest = _
    simp [jsonQuote, chars, List.append_assoc]
  rw [hin]
  simp only [parseObjectItems]
  rw [parseStrBody_escape k _ _ (by
    have := flatMap_escape_length k
    simp only [List.length_append, List.length_cons]
    omega)]
  simp only [skipWs_not_ws ':' _ (by decide : jsonWs ':' = false)]
  simp only [skipWs_cons_space, skipWs_dumps, h1]
  rw [skipWs_not_ws ',' _ (by decide)]
  simp only [skipWs_cons_space]
  have hsk : skipWs (jsonDumpsEntries (e :: t) ++ '\x7d' :: rest)
      = jsonDumpsEntries (e :: t) ++ '\x7d' :: rest := by
    obtain ⟨k2, v2⟩ := e
    rcases dumpsEntries_cons_shape k2 v2 t ('\x7d' :: rest) with ⟨Z, hZ, _⟩
    rw [hZ]
    exact skipWs_not_ws '"' _ (by decide)
  simp only [hsk, h2]

lemma jsonDumps_length_list (xs : List PyVal) :
    (jsonDumps (.list xs)).length = (jsonDumpsList xs).length + 2 := by
  simp [jsonDumps]

lemma jsonDumps_length_dict (d : List (List Char × PyVal)) :
    (jsonDumps (.dict d)).length = (jsonDumpsEntries d).length + 2 := by
  simp [jsonDumps]

lemma jsonDumps_length_pos (v : PyVal) : 0 < (jsonDumps v).length :=
  List.length_pos.mpr (jsonDumps_ne_nil v)

lemma dumpsList_single_length (x : PyVal) :
    (jsonDumpsList [x]).length = (jsonDumps x).length := by
  simp [jsonDumpsList]

lemma dumpsList_cons2_length (x y : PyVal) (t : List PyVal) :
    (jsonDumpsList (x :: y :: t)).length
      = (jsonDumps x).length + 2 + (jsonDumpsList (y :: t)).length := by
  have h2 : (chars ", ").length = 2 := rfl
  simp [jsonDumpsList, List.length_append, h2]
  omega

lemma dumpsEntries_single_length (k : List Char) (v : PyVal) :
    (jsonDumpsEntries [(k, v)]).length
      = (k.flatMap jsonEscapeChar).length + 4 + (jsonDumps v).length := by
  have h2 : (chars ": ").length = 2 := rfl
  simp [jsonDumpsEntries, jsonQuote, List.length_append, h2]
  omega

lemma dumpsEntries_cons2_length (k : List Char) (v : PyVal)
    (e : List Char × PyVal) (t : List (List Char × PyVal)) :
    (jsonDumpsEntries ((k, v) :: e :: t)).length
      = (k.flatMap jsonEscapeChar).length + 4 + (jsonDumps v).length + 2
        + (jsonDumpsEntries (e :: t)).length := by
  have h2 : (chars ": ").length = 2 := rfl
  have h3 : (chars ", ").length = 2 := rfl
  simp [jsonDumpsEntries, jsonQuote, List.length_append, h2, h3]
  omega

lemma headNotDigit (c : Char) (X : List Char) (h : c.isDigit = false) :
    ∀ d, (c :: X).head? = some d → d.isDigit = false := by
  intro d hd
  rw [List.head?_cons, Option.some.injEq] at hd
  rw [← hd]
  exact h

theorem parse_dumps_aux (fuel : ℕ) :
    (∀ (v : PyVal) (rest : List Char),
      (jsonDumps v).length < fuel → PyVal.wf v = true →
      (∀ c, rest.head? = some c → c.isDigit = false) →
      floatFollow rest = false →
      parseValue fuel (jsonDumps v ++ rest) = some (v, rest))
    ∧ (∀ (xs : List PyVal) (rest : List Char), xs ≠ [] →
      (jsonDumpsList xs).length + 1 < fuel → PyVal.wfList xs = true →
      parseArrayItems fuel (jsonDumpsList xs ++ ']' :: rest)
        = some (xs, rest))
    ∧ (∀ (es : List (List Char × PyVal)) (rest : List Char), es ≠ [] →
      (jsonDumpsEntries es).length + 1 < fuel → PyVal.wfEntries es = true →
      parseObjectItems fuel (jsonDumpsEntries es ++ '\x7d' :: rest)
        = some (es, rest)) := by
  induction fuel with
  | zero =>
      refine ⟨?_, ?_, ?_⟩ <;> intros <;> omega
  | succ f ih =>
      obtain ⟨ihV, ihL, ihE⟩ := ih
      refine ⟨?_, ?_, ?_⟩
      · intro v rest hlen hwf hd hb
        cases v with
        | none => exact parseValue_null_step f rest
        | bool b =>
            cases b
            · exact parseValue_false_step f rest
            · exact parseValue_true_step f rest
        | int i => exact parseValue_int_step f i rest hb hd
        | str s => exact parseValue_str_step f s rest
        | list xs =>
            cases xs with
            | nil => exact parseValue_list_nil_step f rest
            | cons x t =>
                have hl2 := jsonDumps_length_list (x :: t)
                exact parseValue_list_cons_step f x t rest
                  (ihL (x :: t) rest (by simp) (by omega) hwf)
        | dict d =>
            cases d with
            | nil => exact parseValue_dict_nil_step f rest
            | cons e t =>
                obtain ⟨k, w⟩ := e
                have hl2 := jsonDumps_length_dict ((k, w) :: t)
                simp only [PyVal.wf, Bool.and_eq_true] at hwf
                exact parseValue_dict_cons_step f k w t rest
                  (ihE ((k, w) :: t) rest (by simp) (by omega) hwf.2)
                  hwf.1
      · intro xs rest hne hlen hwf
        cases xs with
        | nil => exact absurd rfl hne
        | cons x t =>
            simp only [PyVal.wfList, Bool.and_eq_true] at hwf
            cases t with
            | nil =>
                have hl1 := dumpsList_single_length x
                exact parseArrayItems_single_step f x rest
                  (ihV x (']' :: rest) (by omega) hwf.1
                    (headNotDigit ']' rest (by decide)) rfl)
            | cons y t2 =>
                have hl2 := dumpsList_cons2_length x y t2
                exact parseArrayItems_cons_step f x y t2 rest
                  (ihV x _ (by omega) hwf.1
                    (headNotDigit ',' _ (by decide)) rfl)
                  (ihL (y :: t2) rest (by simp) (by omega) hwf.2)
      · intro es rest hne hlen hwf
        cases es with
        | nil => exact absurd rfl hne
        | cons e t =>
            obtain ⟨k, v⟩ := e
            simp only [PyVal.wfEntries, Bool.and_eq_true] at hwf
            cases t with
            | nil =>
                have hl1 := dumpsEntries_single_length k v
                exact parseObjectItems_single_step f k v rest
                  (ihV v ('\x7d' :: rest) (by omega) hwf.1
                    (headNotDigit '\x7d' rest (by decide)) rfl)
            | cons e2 t2 =>
                have hl2 := dumpsEntries_cons2_length k v e2 t2
                exact parseObjectItems_cons_step f k v e2 t2 rest
                  (ihV v _ (by omega) hwf.1
                    (headNotDigit ',' _ (by decide)) rfl)
                  (ihE (e2 :: t2) rest (by simp) (by omega) hwf.2)

theorem jsonLoads_dumps (v : PyVal) (h : PyVal.wf v = true) :
    jsonLoads (jsonDumps v) = some v := by
  unfold jsonLoads
  have hsk : skipWs (jsonDumps v) = jsonDumps v := by
    have := skipWs_dumps v []
    simpa using this
  rw [hsk]
  have hp := (parse_dumps_aux ((jsonDumps v).length + 1)).1 v []
    (by omega) h (by intro c hc; simp at hc) rfl
  rw [List.append_nil] at hp
  rw [hp]
  rfl

lemma alookup_aset_self {κ α : Type} [DecidableEq κ] (k : κ) (v : α)
    (m : List (κ × α)) : alookup k (aset k v m) = some v := by
  induction m with
  | nil => simp [aset, alookup]
  | cons e t ih =>
      simp only [aset]
      split_ifs with h
      · simp [alookup]
      · simp [alookup, h, ih]

lemma aset_ne_nil {κ α : Type} [DecidableEq κ] (k : κ) (v : α)
    (m : List (κ × α)) : aset k v m ≠ [] := by
  cases m with
  | nil => simp [aset]
  | cons e t =>
      simp only [aset]
      split_ifs <;> simp

lemma aset_isEmpty_false {κ α : Type} [DecidableEq κ] (k : κ) (v : α)
    (m : List (κ × α)) : (aset k v m).isEmpty = false := by
  rcases h : (aset k v m).isEmpty with _ | _
  · rfl
  · exact absurd (List.isEmpty_iff.mp h) (aset_ne_nil k v m)

lemma set_get_roundtrip_raw (st : CacheManagerState) (label : String)
    (q : List Char) (r : PyVal) (now1 now2 ttl : ℕ)
    (hen : st.enable_cache = true) (hne : st.cache.isEmpty = false)
    (hgate : CacheManager.cacheTtlFor st.agent_configs label = some ttl)
    (hfresh : now2 - now1 < ttl) :
    (CacheManager.get_cached
        (CacheManager.set_cached st label q r now1) label q now2).1
      = some ((jsonLoads (CacheManager.serializeResult r)).getD
          (.str (CacheManager.serializeResult r))) := by
  unfold CacheManager.set_cached
  rw [hen, hne, hgate]
  simp only [Bool.not_true, Bool.or_false, Bool.false_eq_true, if_false]
  unfold CacheManager.get_cached
  simp only [hen, aset_isEmpty_false, Bool.not_true, Bool.or_false,
    Bool.false_eq_true, if_false, hgate, alookup_aset_self, Option.getD_some]
  rw [if_pos hfresh]

/-- C10 counterexample: on a freshly constructed `CacheManager`
(cache enabled, provider TTL 60 > 0), `set_cached` followed by `get_cached`
within the TTL does not return the stored dict: the `not self._cache` guard
drops the write to the initially empty `_cache`, so `get_cached` returns
`None`. -/
theorem c10_fresh_cache_roundtrip_counterexample :
    (CacheManager.get_cached
        (CacheManager.set_cached stFresh (AgentType.STOCK.value) (chars "q")
          (.dict [(chars "a", .int 1)]) 0)
        (AgentType.STOCK.value) (chars "q") 0).1 = Option.none
    ∧ (Option.none : Option PyVal) ≠ some (.dict [(chars "a", .int 1)]) :=
  ⟨rfl, fun h => Option.noConfusion h⟩

/-- C10 (amended): at a cache state whose `_cache` dict is already nonempty
(cache enabled, TTL gate passing), `set_cached` followed by `get_cached`
within the TTL is value-preserving for dict/list results (stored as
`json.dumps`, decoded by `json.loads`), but not type-preserving for strings:
the stored string `"123"` is returned as the decoded int `123`. -/
theorem c10_cache_roundtrip_corrected (st : CacheManagerState) (label : String)
    (q : List Char) (v : PyVal) (now1 now2 ttl : ℕ)
    (hen : st.enable_cache = true) (hne : st.cache.isEmpty = false)
    (hgate : CacheManager.cacheTtlFor st.agent_configs label = some ttl)
    (hfresh : now2 - now1 < ttl)
    (hwf : PyVal.wf v = true) (hstruct : PyVal.isStructured v = true) :
    (CacheManager.get_cached
        (CacheManager.set_cached st label q v now1) label q now2).1 = some v
    ∧ (CacheManager.get_cached
        (CacheManager.set_cached st label q (.str (chars "123")) now1)
        label q now2).1 = some (.int 123) := by
  constructor
  · rw [set_get_roundtrip_raw st label q v now1 now2 ttl hen hne hgate hfresh]
    have hser : CacheManager.serializeResult v = jsonDumps v := by
      cases v <;> simp_all [PyVal.isStructured, CacheManager.serializeResult,
        jsonDumps]
    rw [hser, jsonLoads_dumps v hwf]
    rfl
  · rw [set_get_roundtrip_raw st label q (.str (chars "123")) now1 now2 ttl
      hen hne hgate hfresh]
    rfl

/-- C10 witness: the amended round trip at a concrete nonempty cache state,
stock provider (TTL 60), dict `{"a": 1}` and string `"123"`. -/
theorem c10_cache_roundtrip_corrected_witness :
    (CacheManager.get_cached
        (CacheManager.set_cached stLive "stock" (chars "q")
          (.dict [(chars "a", .int 1)]) 0) "stock" (chars "q") 0).1
      = some (.dict [(chars "a", .int 1)])
    ∧ (CacheManager.get_cached
        (CacheManager.set_cached stLive "stock" (chars "q")
          (.str (chars "123")) 0) "stock" (chars "q") 0).1
      = some (.int 123) :=
  c10_cache_roundtrip_corrected stLive "stock" (chars "q")
    (.dict [(chars "a", .int 1)]) 0 0 60 rfl rfl rfl (by decide)
    (by decide) rfl

/-- C4 counterexample: a failed provider call IS cached.  At a nonempty
enabled cache state, `handle_generic` for the stock provider (TTL 60) with a
raising underlying call returns the error dict and writes it into the cache
(`handlers.py` lines 162-172 call `set_cached` in the `except` branch). -/
theorem c4_error_result_cached_counterexample :
    (Handlers.handle_generic stLive .STOCK (chars "q")
        (.exc (chars "boom")) 0).1
      = some (Handlers.errorResult .STOCK (chars "q") (chars "boom"))
    ∧ alookup (CacheManager._get_cache_key (AgentType.STOCK.value) (chars "q"))
        (Handlers.handle_generic stLive .STOCK (chars "q")
          (.exc (chars "boom")) 0).2.cache
      = some (jsonDumps
          (Handlers.errorResult .STOCK (chars "q") (chars "boom"))) :=
  ⟨rfl, rfl⟩

/-- C4 (amended): the actual cache write/read conditions.  (1) For the email
provider (TTL 0) the cache is never read and never written, at every state.
(2) Every write to an empty `_cache` dict is dropped by the `not self._cache`
guard, so a fresh manager never stores anything.  (3) At a nonempty enabled
state, a FAILED stock call is cached: `handle_generic` writes the error dict.
(4) At a nonempty enabled state a successful non-`None` result passing the
stock error-indicator filter is cached as well. -/
theorem c4_cache_write_conditions :
    (∀ (st : CacheManagerState) (q : List Char) (r : PyVal) (now : ℕ),
      st.agent_configs = cmConfigs →
      CacheManager.get_cached st (AgentType.EMAIL.value) q now
          = (Option.none, st)
        ∧ CacheManager.set_cached st (AgentType.EMAIL.value) q r now = st)
    ∧ (∀ (st : CacheManagerState) (label : String) (q : List Char) (r : PyVal)
        (now : ℕ), st.cache = [] →
      CacheManager.set_cached st label q r now = st)
    ∧ (∀ (st : CacheManagerState) (q msg : List Char) (now : ℕ),
      st.enable_cache = true → st.cache.isEmpty = false →
      st.agent_configs = cmConfigs →
      CacheManager.get_cached st (AgentType.STOCK.value) q now
        = (Option.none, st) →
      (Handlers.handle_generic st .STOCK q (.exc msg) now).1
          = some (Handlers.errorResult .STOCK q msg)
        ∧ alookup (CacheManager._get_cache_key (AgentType.STOCK.value) q)
            (Handlers.handle_generic st .STOCK q (.exc msg) now).2.cache
          = some (jsonDumps (Handlers.errorResult .STOCK q msg)))
    ∧ (∀ (st : CacheManagerState) (q : List Char) (res : PyVal) (now : ℕ),
      st.enable_cache = true → st.cache.isEmpty = false →
      st.agent_configs = cmConfigs →
      CacheManager.get_cached st (AgentType.STOCK.value) q now
        = (Option.none, st) →
      res.isNone = false →
      Handlers.stockErrorHit (Handlers.normContent res) = false →
      (Handlers.handle_generic st .STOCK q (.ok res) now).1
          = some (Handlers.otherResult .STOCK q (Handlers.normContent res) res)
        ∧ alookup (CacheManager._get_cache_key (AgentType.STOCK.value) q)
            (Handlers.handle_generic st .STOCK q (.ok res) now).2.cache
          = some (jsonDumps
              (Handlers.otherResult .STOCK q
                (Handlers.normContent res) res))) := by
  have hg0 : CacheManager.cacheTtlFor cmConfigs (AgentType.EMAIL.value)
      = Option.none := rfl
  have hg60 : CacheManager.cacheTtlFor cmConfigs (AgentType.STOCK.value)
      = some 60 := rfl
  refine ⟨?_, ?_, ?_, ?_⟩
  · intro st q r now hc
    constructor
    · unfold CacheManager.get_cached
      rw [hc, hg0]
      split_ifs <;> rfl
    · unfold CacheManager.set_cached
      rw [hc, hg0]
      split_ifs <;> rfl
  · intro st label q r now hcache
    unfold CacheManager.set_cached
    rw [hcache]
    simp
  · intro st q msg now hen hne hc hmiss
    have hset : CacheManager.set_cached st (AgentType.STOCK.value) q
        (Handlers.errorResult .STOCK q msg) now
        = { st with
            cache := aset (CacheManager._get_cache_key
                (AgentType.STOCK.value) q)
              (jsonDumps (Handlers.errorResult .STOCK q msg)) st.cache,
            cache_timestamps := aset (CacheManager._get_cache_key
                (AgentType.STOCK.value) q) now st.cache_timestamps } := by
      unfold CacheManager.set_cached
      rw [hen, hne, hc, hg60]
      rfl
    constructor
    · simp only [Handlers.handle_generic, hmiss]
      rfl
    · simp only [Handlers.handle_generic, hmiss]
      show alookup _ (CacheManager.set_cached st (AgentType.STOCK.value) q
        (Handlers.errorResult .STOCK q msg) now).cache = _
      rw [hset, alookup_aset_self]
  · intro st q res now hen hne hc hmiss hres hhit
    have hser : CacheManager.serializeResult
        (Handlers.otherResult .STOCK q (Handlers.normContent res) res)
        = jsonDumps (Handlers.otherResult .STOCK q
            (Handlers.normContent res) res) := rfl
    have hset : CacheManager.set_cached st (AgentType.STOCK.value) q
        (Handlers.otherResult .STOCK q (Handlers.normContent res) res) now
        = { st with
            cache := aset (CacheManager._get_cache_key
                (AgentType.STOCK.value) q)
              (jsonDumps (Handlers.otherResult .STOCK q
                (Handlers.normContent res) res)) st.cache,
            cache_timestamps := aset (CacheManager._get_cache_key
                (AgentType.STOCK.value) q) now st.cache_timestamps } := by
      unfold CacheManager.set_cached
      rw [hen, hne, hc, hg60]
      rfl
    constructor
    · simp only [Handlers.handle_generic, hmiss, hres, hhit,
        Bool.and_false, Bool.false_eq_true, if_false]
      rfl
    · simp only [Handlers.handle_generic, hmiss, hres, hhit,
        Bool.and_false, Bool.false_eq_true, if_false]
      show alookup _ (CacheManager.set_cached st (AgentType.STOCK.value) q
        (Handlers.otherResult .STOCK q (Handlers.normContent res) res)
        now).cache = _
      rw [hset, alookup_aset_self]

/-- C4 witness: the amended conditions at concrete states — TTL-0 email
read/write no-ops, a dropped write at the fresh state, and the cached error
and success results of the stock provider at the seeded state. -/
theorem c4_cache_write_conditions_witness :
    (CacheManager.get_cached stLive (AgentType.EMAIL.value) (chars "q") 0
        = (Option.none, stLive))
    ∧ CacheManager.set_cached stFresh "stock" (chars "q") (.int 1) 0 = stFresh
    ∧ (Handlers.handle_generic stLive .STOCK (chars "q")
        (.exc (chars "boom")) 0).1
      = some (Handlers.errorResult .STOCK (chars "q") (chars "boom"))
    ∧ (Handlers.handle_generic stLive .STOCK (chars "q")
        (.ok (.str (chars "fine"))) 0).1
      = some (Handlers.otherResult .STOCK (chars "q")
          (Handlers.normContent (.str (chars "fine")))
          (.str (chars "fine"))) :=
  ⟨(c4_cache_write_conditions.1 stLive (chars "q") (.int 0) 0 rfl).1,
    c4_cache_write_conditions.2.1 stFresh "stock" (chars "q") (.int 1) 0 rfl,
    (c4_cache_write_conditions.2.2.1 stLive (chars "q") (chars "boom") 0
      rfl rfl rfl rfl).1,
    (c4_cache_write_conditions.2.2.2 stLive (chars "q") (.str (chars "fine"))
      0 rfl rfl rfl rfl rfl rfl).1⟩
